import Mathlib

/-!
Verification of the group-call members controller
(`calls_group_members.cpp`): row state transitions, the resort decision
and comparator of the ordering engine, video endpoint routing, the
raised-hand status expiry scheduler and row removal, embedded shallowly.
-/

namespace GroupCallMembers

/-- `Row::State` from the source. -/
inductive RState where
  | Active
  | Inactive
  | Muted
  | RaisedHand
  | MutedByMe
  | Invited
deriving DecidableEq, Repr

/-- The slice of `Data::GroupCall::Participant` read by the controller. -/
structure Participant where
  muted : Bool
  mutedByMe : Bool
  canSelfUnmute : Bool
  speaking : Bool
  sounding : Bool
  raisedHandRating : Nat
  ssrc : Nat
  volume : Int
deriving DecidableEq, Repr

/-- `Group::kDefaultVolume` (external constant; only its identity matters). -/
def kDefaultVolume : Int := 10000

/-- The slice of `Row` driving ordering decisions: identity, state,
raised-hand rating, audio flags, ssrc and volume. -/
structure Row where
  peer : Nat
  state : RState
  raisedHandRating : Nat
  speaking : Bool
  sounding : Bool
  ssrc : Nat
  volume : Int
deriving DecidableEq, Repr

/-- `Row::updateState`: applies a participant record (or its absence) to
a row, following the four branches of the source. -/
def Row.updateState (r : Row) (p : Option Participant) : Row :=
  let base := { r with
    ssrc := match p with | some q => q.ssrc | none => 0
    volume := match p with | some q => q.volume | none => kDefaultVolume }
  match p with
  | none =>
      { base with
        state := RState.Invited
        sounding := false
        speaking := false
        raisedHandRating := 0 }
  | some q =>
      if !q.muted || (q.sounding && q.ssrc != 0) then
        { base with
          state := if q.mutedByMe then RState.MutedByMe else RState.Active
          sounding := q.sounding && q.ssrc != 0
          speaking := q.speaking && q.ssrc != 0
          raisedHandRating := 0 }
      else if q.canSelfUnmute then
        { base with
          state := if q.mutedByMe then RState.MutedByMe else RState.Inactive
          sounding := false
          speaking := false
          raisedHandRating := 0 }
      else
        { base with
          raisedHandRating := q.raisedHandRating
          state := if q.raisedHandRating != 0
            then RState.RaisedHand
            else RState.Muted
          sounding := false
          speaking := false }

/-- Well-formedness every row produced by `Row.updateState` enjoys: the
rating is nonzero exactly in the `RaisedHand` state. -/
def Row.wf (r : Row) : Prop :=
  r.raisedHandRating ≠ 0 ↔ r.state = RState.RaisedHand

instance (r : Row) : Decidable r.wf := by
  unfold Row.wf; infer_instance

theorem updateState_wf (r : Row) (p : Option Participant) :
    (r.updateState p).wf := by
  rcases p with _ | q
  · simp [Row.updateState, Row.wf]
  · simp only [Row.updateState, Row.wf]
    by_cases h1 : (!q.muted || (q.sounding && q.ssrc != 0)) = true
    · by_cases hm : q.mutedByMe <;> simp [h1, hm]
    · simp only [h1]
      by_cases h2 : q.canSelfUnmute
      · by_cases hm : q.mutedByMe <;> simp [h1, h2, hm]
      · simp only [h1, h2]
        by_cases h3 : q.raisedHandRating ≠ 0 <;> simp [h1, h2, h3]

/-- `MembersController::allRowsAboveAreSpeaking`: scan rows from the top;
reaching the checked row (position `idx`) yields `true`, the first
non-speaking row before it breaks the scan, and exhausting the list
yields `false`. The source compares row pointers; here the checked row is
designated by its position, counted down as the scan descends. -/
def allRowsAboveAreSpeaking : List Row → Nat → Bool
  | [], _ => false
  | _ :: _, 0 => true
  | r :: rs, n + 1 => r.speaking && allRowsAboveAreSpeaking rs n

/-- `MembersController::allRowsAboveMoreImportantThanHand`: scan rows
from the top; reaching the checked row yields `true`, and a `Muted` row
or a `RaisedHand` row rated strictly below `rating` breaks the scan. -/
def allRowsAboveMoreImportantThanHand : List Row → Nat → Nat → Bool
  | [], _, _ => false
  | _ :: _, 0, _ => true
  | r :: rs, n + 1, rating =>
      !(r.state == RState.Muted
        || (r.state == RState.RaisedHand && r.raisedHandRating < rating))
      && allRowsAboveMoreImportantThanHand rs n rating

/-- `MembersController::needToReorder`, for the row at position `idx` of
`rows`; `canManage` is `_peer->canManageGroupCall()`. -/
def needToReorder (canManage : Bool) (rows : List Row) (idx : Nat) : Bool :=
  match rows[idx]? with
  | none => false
  | some row =>
    if row.speaking then
      !allRowsAboveAreSpeaking rows idx
    else if !canManage then
      false
    else
      let rating := row.raisedHandRating
      if rating == 0 && row.state != RState.Muted then
        false
      else if rating > 0
          && !allRowsAboveMoreImportantThanHand rows idx rating then
        true
      else if idx + 1 == rows.length then
        false
      else
        match rows[idx + 1]? with
        | none => false
        | some next =>
          if next.state != RState.Muted
              && next.state != RState.RaisedHand then
            true
          else if rating == 0 && next.raisedHandRating != 0 then
            true
          else
            false

/-- The resort decision as the claim states it: a speaking row needs a
reorder exactly when the top-down scan meets a non-speaking row before
the checked row; a non-speaking row never triggers one without
moderation capability; otherwise (rating positive or state `Muted`) a
reorder is needed when some row above is neither more important than the
hand nor the checked row, or, for a zero-rating row, when the
immediately-following row is neither `Muted` nor `RaisedHand` or is
`RaisedHand` with nonzero rating. -/
def needToReorderClaim (canManage : Bool) (rows : List Row) (idx : Nat) :
    Bool :=
  match rows[idx]? with
  | none => false
  | some row =>
    if row.speaking then
      (rows.take idx).any (fun r => !r.speaking)
    else if !canManage then
      false
    else if row.raisedHandRating == 0 && row.state != RState.Muted then
      false
    else
      (row.raisedHandRating > 0
        && (rows.take idx).any (fun r =>
          r.state == RState.Muted
            || (r.state == RState.RaisedHand
              && r.raisedHandRating < row.raisedHandRating)))
      || (row.raisedHandRating == 0
        && (match rows[idx + 1]? with
          | none => false
          | some next =>
            (next.state != RState.Muted
              && next.state != RState.RaisedHand)
            || (next.state == RState.RaisedHand
              && next.raisedHandRating != 0)))

/-- The claim amended: the clause “reorder when the immediately-following
row is neither `Muted` nor `RaisedHand`” applies to every row that
reaches the next-row check — also to one with a positive rating whose
rows above are all more important than its hand — not only to a
zero-rating row. -/
def needToReorderAmended (canManage : Bool) (rows : List Row) (idx : Nat) :
    Bool :=
  match rows[idx]? with
  | none => false
  | some row =>
    if row.speaking then
      (rows.take idx).any (fun r => !r.speaking)
    else if !canManage then
      false
    else if row.raisedHandRating == 0 && row.state != RState.Muted then
      false
    else
      (row.raisedHandRating > 0
        && (rows.take idx).any (fun r =>
          r.state == RState.Muted
            || (r.state == RState.RaisedHand
              && r.raisedHandRating < row.raisedHandRating)))
      || (match rows[idx + 1]? with
        | none => false
        | some next =>
          (next.state != RState.Muted
            && next.state != RState.RaisedHand)
          || (row.raisedHandRating == 0
            && next.state == RState.RaisedHand
            && next.raisedHandRating != 0))

theorem not_all_any (l : List Row) (p : Row → Bool) :
    (!l.all p) = l.any (fun x => !p x) := by
  induction l with
  | nil => rfl
  | cons a t ih => simp [List.all_cons, List.any_cons, ih, Bool.not_and]

theorem allAboveSpeaking_eq (rows : List Row) (idx : Nat)
    (h : idx < rows.length) :
    allRowsAboveAreSpeaking rows idx
      = (rows.take idx).all (fun r => r.speaking) := by
  induction rows generalizing idx with
  | nil => simp at h
  | cons r rs ih =>
    cases idx with
    | zero => simp [allRowsAboveAreSpeaking]
    | succ n =>
      simp [allRowsAboveAreSpeaking, ih n (by simpa using h)]

theorem allAboveMoreImportant_eq (rows : List Row) (idx rating : Nat)
    (h : idx < rows.length) :
    allRowsAboveMoreImportantThanHand rows idx rating
      = (rows.take idx).all (fun r =>
          !(r.state == RState.Muted
            || (r.state == RState.RaisedHand
              && r.raisedHandRating < rating))) := by
  induction rows generalizing idx with
  | nil => simp at h
  | cons r rs ih =>
    cases idx with
    | zero => simp [allRowsAboveMoreImportantThanHand]
    | succ n =>
      simp [allRowsAboveMoreImportantThanHand, ih n (by simpa using h)]

/-- A non-speaking row with positive rating whose rows above are all
more important than its hand, but whose following row is `Active`:
there the code reorders while the claim's procedure does not. -/
def c1Rows : List Row :=
  [⟨10, RState.RaisedHand, 10, false, false, 0, 0⟩,
   ⟨11, RState.RaisedHand, 5, false, false, 0, 0⟩,
   ⟨12, RState.Active, 0, false, false, 0, 0⟩]

/-- C1: refuted as stated. At `c1Rows`, row 1 (rating 5, rows above all
more important than its hand, following row `Active`), the code decides
a reorder is needed while the claim's procedure decides none is. -/
theorem c1_counterexample :
    needToReorder true c1Rows 1 = true
      ∧ needToReorderClaim true c1Rows 1 = false
      ∧ (∀ r ∈ c1Rows, r.wf) := by
  refine ⟨by decide, by decide, by decide⟩

/-- C1 (amended): for every well-formed row list and every row in it,
`needToReorder` equals the claim's procedure once the clause “reorder
when the immediately-following row is neither `Muted` nor `RaisedHand`”
is applied to every row reaching the next-row check, not only to
zero-rating rows. -/
theorem c1_needToReorder_follows_amended_procedure
    (canManage : Bool) (rows : List Row)
    (idx : Nat) (h : idx < rows.length) (hwf : ∀ r ∈ rows, r.wf) :
    needToReorder canManage rows idx
      = needToReorderAmended canManage rows idx := by
  have hA : (!allRowsAboveMoreImportantThanHand rows idx
      rows[idx].raisedHandRating)
      = (rows.take idx).any (fun r =>
          r.state == RState.Muted
            || (r.state == RState.RaisedHand
              && r.raisedHandRating < rows[idx].raisedHandRating)) := by
    rw [allAboveMoreImportant_eq rows idx _ h, not_all_any]
    simp
  unfold needToReorder needToReorderAmended
  rw [List.getElem?_eq_getElem h]
  simp only
  by_cases hs : rows[idx].speaking
  · simp only [hs, if_true]
    rw [allAboveSpeaking_eq rows idx h, not_all_any]
  · cases canManage with
    | false => simp [hs]
    | true =>
      by_cases hnext : idx + 1 < rows.length
      · have hne : ¬(idx + 1 = rows.length) := by omega
        have hwfnext : rows[idx+1].wf := hwf _ (List.getElem_mem _)
        rw [List.getElem?_eq_getElem hnext]
        by_cases hr0 : rows[idx].raisedHandRating = 0
        · by_cases hm : rows[idx].state = RState.Muted
          · cases hst : rows[idx+1].state with
            | RaisedHand =>
                simp only [hs, hr0, hm, hne, hst, bne]
                by_cases hz2 : rows[idx+1].raisedHandRating = 0 <;>
                  simp [hz2, hne, hst]
            | Active =>
                have hz : rows[idx+1].raisedHandRating = 0 := by
                  by_contra hc
                  have hrh := hwfnext.mp hc
                  rw [hst] at hrh
                  exact RState.noConfusion hrh
                simp [hs, hr0, hm, hne, hst, hz, bne]
            | Inactive =>
                have hz : rows[idx+1].raisedHandRating = 0 := by
                  by_contra hc
                  have hrh := hwfnext.mp hc
                  rw [hst] at hrh
                  exact RState.noConfusion hrh
                simp [hs, hr0, hm, hne, hst, hz, bne]
            | Muted =>
                have hz : rows[idx+1].raisedHandRating = 0 := by
                  by_contra hc
                  have hrh := hwfnext.mp hc
                  rw [hst] at hrh
                  exact RState.noConfusion hrh
                simp [hs, hr0, hm, hne, hst, hz, bne]
            | MutedByMe =>
                have hz : rows[idx+1].raisedHandRating = 0 := by
                  by_contra hc
                  have hrh := hwfnext.mp hc
                  rw [hst] at hrh
                  exact RState.noConfusion hrh
                simp [hs, hr0, hm, hne, hst, hz, bne]
            | Invited =>
                have hz : rows[idx+1].raisedHandRating = 0 := by
                  by_contra hc
                  have hrh := hwfnext.mp hc
                  rw [hst] at hrh
                  exact RState.noConfusion hrh
                simp [hs, hr0, hm, hne, hst, hz, bne]
          · simp [hs, hr0, hm]
        · have hgt : 0 < rows[idx].raisedHandRating :=
            Nat.pos_of_ne_zero hr0
          by_cases ha : allRowsAboveMoreImportantThanHand rows idx
              rows[idx].raisedHandRating
          · have hany : ((rows.take idx).any (fun r =>
                r.state == RState.Muted
                  || (r.state == RState.RaisedHand
                    && r.raisedHandRating
                      < rows[idx].raisedHandRating))) = false := by
              rw [← hA, ha]; rfl
            cases hst : rows[idx+1].state <;>
              simp [hs, hr0, hgt, ha, hany, hne, hst]
          · have hany : ((rows.take idx).any (fun r =>
                r.state == RState.Muted
                  || (r.state == RState.RaisedHand
                    && r.raisedHandRating
                      < rows[idx].raisedHandRating))) = true := by
              rw [← hA]; simp [ha]
            simp [hs, hr0, hgt, ha, hany]
      · have hnone : rows[idx+1]? = none := by
          rw [List.getElem?_eq_none_iff]; omega
        by_cases hr0 : rows[idx].raisedHandRating = 0
        · by_cases hm : rows[idx].state = RState.Muted
          · have hlen : idx + 1 = rows.length := by omega
            simp [hs, hr0, hm, hnone, hlen]
          · simp [hs, hr0, hm]
        · have hgt : 0 < rows[idx].raisedHandRating :=
            Nat.pos_of_ne_zero hr0
          by_cases ha : allRowsAboveMoreImportantThanHand rows idx
              rows[idx].raisedHandRating
          · have hany : ((rows.take idx).any (fun r =>
                r.state == RState.Muted
                  || (r.state == RState.RaisedHand
                    && r.raisedHandRating
                      < rows[idx].raisedHandRating))) = false := by
              rw [← hA, ha]; rfl
            have hlen : idx + 1 = rows.length := by omega
            simp [hs, hr0, hgt, ha, hany, hnone, hlen]
          · have hany : ((rows.take idx).any (fun r =>
                r.state == RState.Muted
                  || (r.state == RState.RaisedHand
                    && r.raisedHandRating
                      < rows[idx].raisedHandRating))) = true := by
              rw [← hA]; simp [ha]
            simp [hs, hr0, hgt, ha, hany]

/-- Witness for C1 (amended) at the concrete list `c1Rows`, index 1. -/
theorem c1_needToReorder_follows_amended_procedure_witness :
    needToReorder true c1Rows 1 = needToReorderAmended true c1Rows 1 :=
  c1_needToReorder_follows_amended_procedure true c1Rows 1
    (by decide) (by decide)

/-- The state-transition mapping as the claim states it, as a predicate
on the row produced from a participant record. -/
def updateStateSpec (p : Option Participant) (r' : Row) : Prop :=
  match p with
  | none =>
      r'.state = RState.Invited ∧ r'.sounding = false
        ∧ r'.speaking = false ∧ r'.raisedHandRating = 0
  | some q =>
      if ¬q.muted ∨ (q.sounding ∧ q.ssrc ≠ 0) then
        r'.state
            = (if q.mutedByMe then RState.MutedByMe else RState.Active)
          ∧ r'.sounding = (if q.ssrc = 0 then false else q.sounding)
          ∧ r'.speaking = (if q.ssrc = 0 then false else q.speaking)
      else if q.canSelfUnmute then
        (r'.state = RState.MutedByMe ∨ r'.state = RState.Inactive)
          ∧ r'.sounding = false ∧ r'.speaking = false
      else
        r'.raisedHandRating = q.raisedHandRating
          ∧ r'.state = (if q.raisedHandRating > 0
              then RState.RaisedHand
              else RState.Muted)
          ∧ r'.sounding = false ∧ r'.speaking = false

/-- C3: every participant update applied to a row lands in the claim's
state-transition mapping: absence of a record gives `Invited` with flags
cleared; an unmuted-or-sounding participant gives `MutedByMe`/`Active`
with flags gated by a nonzero ssrc; else self-unmute capability gives
`MutedByMe`/`Inactive` with flags cleared; else the rating is copied and
the state is `RaisedHand` or `Muted` by the rating's sign. -/
theorem c3_updateState_matches_mapping (r : Row) (p : Option Participant) :
    updateStateSpec p (r.updateState p) := by
  rcases p with _ | q
  · simp [Row.updateState, updateStateSpec]
  · obtain ⟨muted, mutedByMe, canSelfUnmute, speaking, sounding, rating,
      ssrc, volume⟩ := q
    cases muted <;> cases mutedByMe <;> cases canSelfUnmute <;>
      cases sounding <;> cases ssrc <;> cases rating <;>
      simp [Row.updateState, updateStateSpec]

/-- `std::numeric_limits<uint64>::max()`, the `kTop` of
`checkRowPosition`. -/
def kTop : Nat := 2 ^ 64 - 1

/-- `projForAdmin` of `checkRowPosition`: the privileged sort key, with
the triggering row designated by its peer id. -/
def projForAdmin (triggerPeer : Nat) (r : Row) : Nat :=
  if r.speaking then
    (if r.peer = triggerPeer then kTop else kTop - 1)
  else if r.raisedHandRating > 0 then
    r.raisedHandRating
  else if r.state = RState.Muted then
    (if r.peer = triggerPeer then 1 else 0)
  else
    kTop - 2

/-- `projForOther` of `checkRowPosition`: the unprivileged sort key. -/
def projForOther (triggerPeer : Nat) (r : Row) : Nat :=
  if r.speaking then
    (if r.peer = triggerPeer then kTop else kTop - 1)
  else
    0

/-- One step of the stable descending sort performed by
`peerListSortRows` with comparator `proj a > proj b`: insert a row
before the first kept row whose key does not exceed its own. -/
def insertByProj (proj : Row → Nat) (x : Row) : List Row → List Row
  | [] => [x]
  | y :: ys =>
      if proj x ≥ proj y then x :: y :: ys else y :: insertByProj proj x ys

/-- The stable sort `peerListSortRows` applies: descending by `proj`,
ties keeping their original relative order. -/
def sortByProj (proj : Row → Nat) (rows : List Row) : List Row :=
  rows.foldr (insertByProj proj) []

/-- `MembersController::checkRowPosition` with no menu open: resort
with the variant chosen by moderation capability when `needToReorder`
fires, else leave the order alone. -/
def checkRowPositionResort (canManage : Bool) (rows : List Row)
    (idx : Nat) : List Row :=
  if needToReorder canManage rows idx then
    let trigger := match rows[idx]? with
      | some r => r.peer
      | none => 0
    sortByProj
      (if canManage then projForAdmin trigger else projForOther trigger)
      rows
  else rows

theorem insertByProj_perm (proj : Row → Nat) (x : Row) (l : List Row) :
    List.Perm (insertByProj proj x l) (x :: l) := by
  induction l with
  | nil => simp [insertByProj]
  | cons y ys ih =>
    by_cases h : proj x ≥ proj y
    · simp [insertByProj, h]
    · simp only [insertByProj, h, if_false]
      exact (ih.cons y).trans (List.Perm.swap x y ys)

theorem sortByProj_perm (proj : Row → Nat) (rows : List Row) :
    List.Perm (sortByProj proj rows) rows := by
  induction rows with
  | nil => simp [sortByProj]
  | cons r rs ih =>
    exact (insertByProj_perm proj r (sortByProj proj rs)).trans (ih.cons r)

theorem insertByProj_sorted (proj : Row → Nat) (x : Row) (l : List Row)
    (h : l.Pairwise (fun a b => proj b ≤ proj a)) :
    (insertByProj proj x l).Pairwise (fun a b => proj b ≤ proj a) := by
  induction l with
  | nil => simp [insertByProj]
  | cons y ys ih =>
    rcases List.pairwise_cons.mp h with ⟨hy, hys⟩
    by_cases hc : proj x ≥ proj y
    · simp only [insertByProj, hc, if_true]
      refine List.pairwise_cons.mpr ⟨?_, h⟩
      intro b hb
      rcases List.mem_cons.mp hb with hb | hb
      · subst hb; exact hc
      · exact le_trans (hy _ hb) hc
    · simp only [insertByProj, hc, if_false]
      refine List.pairwise_cons.mpr ⟨?_, ih hys⟩
      intro b hb
      rcases List.mem_cons.mp
          ((insertByProj_perm proj x ys).mem_iff.mp hb) with hb | hb
      · subst hb; omega
      · exact hy _ hb

theorem sortByProj_sorted (proj : Row → Nat) (rows : List Row) :
    (sortByProj proj rows).Pairwise (fun a b => proj b ≤ proj a) := by
  induction rows with
  | nil => simp [sortByProj]
  | cons r rs ih => exact insertByProj_sorted proj r _ ih

/-- The §8 scenario's initial rows: `[Active, RaisedHand(5),
RaisedHand(9), Muted]`, peers 1–4. -/
def c2Rows : List Row :=
  [⟨1, RState.Active, 0, false, false, 1, kDefaultVolume⟩,
   ⟨2, RState.RaisedHand, 5, false, false, 0, kDefaultVolume⟩,
   ⟨3, RState.RaisedHand, 9, false, false, 0, kDefaultVolume⟩,
   ⟨4, RState.Muted, 0, false, false, 0, kDefaultVolume⟩]

/-- The participant update carrying the new rating-7 raise for the
`Muted` row (force-muted, cannot self-unmute). -/
def c2Raise : Participant :=
  ⟨true, false, false, false, false, 7, 0, kDefaultVolume⟩

/-- The scenario's row list after the raise is applied to row 4. -/
def c2RowsAfter : List Row :=
  c2Rows.map (fun r =>
    if r.peer = 4 then r.updateState (some c2Raise) else r)

/-- C2: when a resort fires, the order produced is a permutation of the
rows sorted descending by the variant's key (`kTop` for the triggering
speaking row, `kTop - 1` for other speaking rows, then in the
privileged variant the positive rating, `1`/`0` for the
triggering/other `Muted` rows and `kTop - 2` for the rest; in the
unprivileged variant `0` for every non-speaking row); and the §8
scenario, a rating-7 raise on the `Muted` row of `[Active,
RaisedHand(5), RaisedHand(9), Muted]`, resorts to `[Active,
RaisedHand(9), RaisedHand(7), RaisedHand(5)]`. -/
theorem c2_resort_sorts_descending_by_key :
    (∀ trigger rows,
      List.Perm (sortByProj (projForAdmin trigger) rows) rows
        ∧ (sortByProj (projForAdmin trigger) rows).Pairwise
            (fun a b => projForAdmin trigger b ≤ projForAdmin trigger a))
    ∧ (∀ trigger rows,
      List.Perm (sortByProj (projForOther trigger) rows) rows
        ∧ (sortByProj (projForOther trigger) rows).Pairwise
            (fun a b => projForOther trigger b ≤ projForOther trigger a))
    ∧ (checkRowPositionResort true c2RowsAfter 3).map
          (fun r => (r.peer, r.state, r.raisedHandRating))
        = [(1, RState.Active, 0), (3, RState.RaisedHand, 9),
           (4, RState.RaisedHand, 7), (2, RState.RaisedHand, 5)] := by
  refine ⟨fun trigger rows => ⟨sortByProj_perm _ _, sortByProj_sorted _ _⟩,
    fun trigger rows => ⟨sortByProj_perm _ _, sortByProj_sorted _ _⟩, ?_⟩
  decide

/-- A participant as the video-routing engine sees one: owner peer and
the values of `computeCameraEndpoint` / `computeScreenEndpoint` (the
empty string standing for no endpoint). -/
structure PartVideo where
  peer : Nat
  camera : String
  screen : String
deriving DecidableEq, Repr

/-- The video-routing state of `MembersController`: per-row attachment
(`Row::_videoTrackEndpoint`, keyed by peer), the reverse index
`_videoEndpoints`, `_largeEndpoint`, and the set of endpoints the call
currently streams. -/
structure RoutingState where
  rows : List (Nat × String)
  index : List (String × Nat)
  large : String
  live : List String
deriving DecidableEq, Repr

/-- Modelled from the spec: `Calls::GroupCall::streamsVideo` (the call
object is outside the sources) — an endpoint is streaming when it is a
non-empty key with a live stream. -/
def streamsVideoL (live : List String) (e : String) : Bool :=
  e ≠ "" && live.contains e

def RoutingState.streams (s : RoutingState) (e : String) : Bool :=
  streamsVideoL s.live e

/-- Modelled from the spec: `MembersController::findParticipant`
resolves a non-empty endpoint to its owning participant via
`Data::GroupCall::participantByEndpoint` (the data layer is outside the
sources) — the participant one of whose endpoints equals the key. -/
def findParticipant (env : List PartVideo) (e : String) :
    Option PartVideo :=
  if e = "" then none
  else env.find? (fun p => p.camera == e || p.screen == e)

/-- `MembersController::setRowVideoEndpoint`: when the attachment
changes, drop the old key from the reverse index, insert the new
non-empty key (`flat_map::emplace`, a no-op on a present key), and set
the row's endpoint. -/
def setRowVideoEndpoint (s : RoutingState) (peer : Nat)
    (endpoint : String) : RoutingState :=
  let was := ((s.rows.lookup peer).getD "")
  let index' :=
    if was ≠ endpoint then
      let i1 := if was ≠ ""
        then s.index.filter (fun kv => kv.1 ≠ was)
        else s.index
      if endpoint ≠ "" then
        (if (i1.lookup endpoint).isSome then i1 else (endpoint, peer) :: i1)
      else i1
    else s.index
  { s with
    rows := s.rows.map (fun kv =>
      if kv.1 = peer then (peer, endpoint) else kv)
    index := index' }

/-- Insert an endpoint into the live set. -/
def insertLive (e : String) (live : List String) : List String :=
  if live.contains e then live else e :: live

/-- The `videoEndpointLargeValue` handler: on a pin change (filtered on
`new ≠ _largeEndpoint`), first hand the old pin back to its owner's row
when it is still streaming and that row shows nothing or shows the
camera while the old pin is the screen; then, with the pin now `new`,
if the new pin's owner's row shows `new`, fall the row back to the
participant's other live endpoint or detach it. -/
def applyPinChange (env : List PartVideo) (s : RoutingState)
    (newep : String) : RoutingState :=
  if newep = s.large then s
  else
    let s1 :=
      if s.streams s.large then
        match findParticipant env s.large with
        | some p =>
          match s.rows.lookup p.peer with
          | some current =>
              if current = "" ∨ (p.screen = s.large ∧ p.camera = current)
              then setRowVideoEndpoint s p.peer s.large
              else s
          | none => s
        | none => s
      else s
    let s2 := { s1 with large := newep }
    match findParticipant env newep with
    | some p =>
      match s2.rows.lookup p.peer with
      | some current =>
          if current = newep then
            if newep = p.camera ∧ s2.streams p.screen then
              setRowVideoEndpoint s2 p.peer p.screen
            else if newep = p.screen ∧ s2.streams p.camera then
              setRowVideoEndpoint s2 p.peer p.camera
            else
              setRowVideoEndpoint s2 p.peer ""
          else s2
      | none => s2
    | none => s2

/-- The `streamsVideoUpdates` handler, stream-up branch: the endpoint
goes live; the owner's row takes the camera when the screen is not
streaming or the pin shows the screen, or takes the screen when the pin
is not the screen. -/
def applyStreamUp (env : List PartVideo) (s : RoutingState)
    (e : String) : RoutingState :=
  let s0 := { s with live := insertLive e s.live }
  match findParticipant env e with
  | some p =>
    match s0.rows.lookup p.peer with
    | some _ =>
        if e = p.camera
            ∧ (¬ s0.streams p.screen ∨ s0.large = p.screen) then
          setRowVideoEndpoint s0 p.peer p.camera
        else if e = p.screen ∧ s0.large ≠ p.screen then
          setRowVideoEndpoint s0 p.peer p.screen
        else s0
    | none => s0
  | none => s0

/-- The `streamsVideoUpdates` handler, stream-down branch: the endpoint
stops streaming; the row found through the reverse index is re-routed
to the owner's other live endpoint if the pin does not conflict, else
detached; with no indexed row, nothing is touched. -/
def applyStreamDown (env : List PartVideo) (s : RoutingState)
    (e : String) : RoutingState :=
  let s0 := { s with live := s.live.filter (fun x => x ≠ e) }
  match s0.index.lookup e with
  | none => s0
  | some peer =>
    match env.find? (fun p => p.peer == peer) with
    | none => setRowVideoEndpoint s0 peer ""
    | some p =>
        if e = p.camera ∧ s0.large ≠ p.screen ∧ s0.streams p.screen then
          setRowVideoEndpoint s0 peer p.screen
        else if e = p.screen ∧ s0.large ≠ p.camera
            ∧ s0.streams p.camera then
          setRowVideoEndpoint s0 peer p.camera
        else setRowVideoEndpoint s0 peer ""

theorem lookup_cons_self {β : Type} (k : Nat) (v : β)
    (t : List (Nat × β)) :
    List.lookup k ((k, v) :: t) = some v := by
  have : (k == k) = true := by simp
  simp [List.lookup, this]

theorem lookup_cons_ne {β : Type} (q k : Nat) (v : β)
    (t : List (Nat × β)) (h : q ≠ k) :
    List.lookup q ((k, v) :: t) = List.lookup q t := by
  have : (q == k) = false := by simpa using h
  simp [List.lookup, this]

theorem lookup_map_update {β : Type} (l : List (Nat × β)) (p : Nat)
    (e : β) (q : Nat) :
    (l.map (fun kv => if kv.1 = p then (p, e) else kv)).lookup q
      = if q = p then (l.lookup q).map (fun _ => e) else l.lookup q := by
  induction l with
  | nil => simp [List.lookup]
  | cons kv t ih =>
    obtain ⟨k, v⟩ := kv
    simp only [List.map_cons]
    by_cases h1 : k = p
    · subst h1
      by_cases h2 : q = k
      · subst h2
        rw [show (if (q, v).1 = q then (q, e) else (q, v)) = (q, e) by simp,
          lookup_cons_self, lookup_cons_self]
        simp
      · rw [show (if (k, v).1 = k then (k, e) else (k, v)) = (k, e) by simp,
          lookup_cons_ne q k e _ h2, lookup_cons_ne q k v _ h2, ih]
    · have hkv : (if (k, v).1 = p then (p, e) else (k, v)) = (k, v) := by
        simp [h1]
      rw [hkv]
      by_cases h2 : q = k
      · subst h2
        rw [lookup_cons_self, lookup_cons_self]
        simp [h1]
      · rw [lookup_cons_ne q k v _ h2, lookup_cons_ne q k v _ h2, ih]

theorem lookup_setRow (s : RoutingState) (p : Nat) (e : String) (q : Nat) :
    (setRowVideoEndpoint s p e).rows.lookup q
      = if q = p then (s.rows.lookup q).map (fun _ => e)
        else s.rows.lookup q := by
  simp [setRowVideoEndpoint, lookup_map_update]

theorem streamUp_large (env : List PartVideo) (s : RoutingState)
    (e : String) :
    (applyStreamUp env s e).large = s.large := by
  unfold applyStreamUp
  cases findParticipant env e with
  | none => rfl
  | some p =>
      simp only
      split
      · split
        · simp [setRowVideoEndpoint]
        · split
          · simp [setRowVideoEndpoint]
          · rfl
      · rfl

theorem streamUp_live (env : List PartVideo) (s : RoutingState)
    (e : String) :
    (applyStreamUp env s e).live = insertLive e s.live := by
  unfold applyStreamUp
  cases findParticipant env e with
  | none => rfl
  | some p =>
      simp only
      split
      · split
        · simp [setRowVideoEndpoint]
        · split
          · simp [setRowVideoEndpoint]
          · rfl
      · rfl

theorem findParticipant_ne_empty (env : List PartVideo) (e : String)
    (p : PartVideo) (h : findParticipant env e = some p) : e ≠ "" := by
  intro he
  rw [he] at h
  simp [findParticipant] at h

theorem contains_insertLive_self (e : String) (l : List String) :
    (insertLive e l).contains e = true := by
  unfold insertLive
  by_cases h : l.contains e = true
  · rw [if_pos h]; exact h
  · rw [if_neg h]; simp

theorem contains_insertLive_other (e x : String) (l : List String)
    (h : x ≠ e) :
    (insertLive e l).contains x = l.contains x := by
  unfold insertLive
  by_cases hc : l.contains e = true
  · rw [if_pos hc]
  · rw [if_neg hc]
    simp [List.contains_cons, h]

/-- The stream-up routing characterized row-wise: the owner's row takes
the camera under the claim's camera condition, the screen under the
claim's screen condition, else keeps its endpoint; other rows are
untouched. -/
theorem streamUp_routes (env : List PartVideo) (s : RoutingState)
    (e : String) (p : PartVideo) (cur : String)
    (hp : findParticipant env e = some p)
    (hrow : s.rows.lookup p.peer = some cur) :
    ((applyStreamUp env s e).rows.lookup p.peer
      = some (
        if e = p.camera
            ∧ (¬ streamsVideoL (insertLive e s.live) p.screen
              ∨ s.large = p.screen)
        then p.camera
        else if e = p.screen ∧ s.large ≠ p.screen then p.screen
        else cur))
    ∧ (∀ q, q ≠ p.peer →
        (applyStreamUp env s e).rows.lookup q = s.rows.lookup q) := by
  constructor
  · simp only [applyStreamUp, hp, hrow, RoutingState.streams]
    by_cases h1 : e = p.camera
        ∧ (¬ streamsVideoL (insertLive e s.live) p.screen = true
          ∨ s.large = p.screen)
    · rw [if_pos h1, if_pos h1, lookup_setRow]
      simp [hrow]
    · rw [if_neg h1, if_neg h1]
      by_cases h2 : e = p.screen ∧ ¬ s.large = p.screen
      · rw [if_pos h2, if_pos h2, lookup_setRow]
        simp [hrow]
      · rw [if_neg h2, if_neg h2]
        exact hrow
  · intro q hq
    simp only [applyStreamUp, hp, hrow, RoutingState.streams]
    by_cases h1 : e = p.camera
        ∧ (¬ streamsVideoL (insertLive e s.live) p.screen = true
          ∨ s.large = p.screen)
    · rw [if_pos h1, lookup_setRow]
      simp [hq]
    · rw [if_neg h1]
      by_cases h2 : e = p.screen ∧ ¬ s.large = p.screen
      · rw [if_pos h2, lookup_setRow]
        simp [hq]
      · rw [if_neg h2]

/-- C5: on a stream-up for endpoint `e` not currently pinned, the
owner's row takes the camera exactly when the screen is not live or the
pin shows the screen, takes the screen exactly when the pin is not the
screen, and keeps its endpoint otherwise; consequently, when a
participant's camera and screen both go live, in either order, with
neither pinned, the row ends up attached to the screen. -/
theorem c5_stream_up_attach :
    (∀ (env : List PartVideo) (s : RoutingState) (e : String)
      (p : PartVideo) (cur : String),
      e ≠ s.large →
      findParticipant env e = some p →
      s.rows.lookup p.peer = some cur →
      (applyStreamUp env s e).rows.lookup p.peer
        = some (
          if e = p.camera
              ∧ (¬ streamsVideoL (insertLive e s.live) p.screen
                ∨ s.large = p.screen)
          then p.camera
          else if e = p.screen ∧ s.large ≠ p.screen then p.screen
          else cur))
    ∧ (∀ (env : List PartVideo) (s : RoutingState)
      (p : PartVideo) (cur : String),
      findParticipant env p.camera = some p →
      findParticipant env p.screen = some p →
      p.camera ≠ p.screen →
      s.large ≠ p.camera →
      s.large ≠ p.screen →
      s.rows.lookup p.peer = some cur →
      s.live.contains p.screen = false →
      ((applyStreamUp env (applyStreamUp env s p.camera) p.screen).rows.lookup
          p.peer = some p.screen)
      ∧ ((applyStreamUp env (applyStreamUp env s p.screen) p.camera).rows.lookup
          p.peer = some p.screen)) := by
  constructor
  · intro env s e p cur _ hp hrow
    exact (streamUp_routes env s e p cur hp hrow).1
  · intro env s p cur hcam hscr hne hlc hls hrow hnl
    have hscrne : p.screen ≠ p.camera := Ne.symm hne
    constructor
    · have h1 := (streamUp_routes env s p.camera p cur hcam hrow).1
      have hdead : streamsVideoL (insertLive p.camera s.live) p.screen
          = false := by
        unfold streamsVideoL
        rw [contains_insertLive_other _ _ _ hscrne, hnl]
        simp
      rw [if_pos ⟨rfl, Or.inl (by rw [hdead]; simp)⟩] at h1
      have h2 := (streamUp_routes env (applyStreamUp env s p.camera)
        p.screen p p.camera hscr h1).1
      rw [if_neg (fun hcc => hscrne hcc.1)] at h2
      rw [if_pos ⟨rfl, by rw [streamUp_large]; exact hls⟩] at h2
      exact h2
    · have h1 := (streamUp_routes env s p.screen p cur hscr hrow).1
      rw [if_neg (fun hcc => hscrne hcc.1)] at h1
      rw [if_pos ⟨rfl, hls⟩] at h1
      have h2 := (streamUp_routes env (applyStreamUp env s p.screen)
        p.camera p p.screen hcam h1).1
      have halive : streamsVideoL
          (insertLive p.camera (applyStreamUp env s p.screen).live)
          p.screen = true := by
        unfold streamsVideoL
        rw [contains_insertLive_other _ _ _ hscrne, streamUp_live,
          contains_insertLive_self]
        simp [findParticipant_ne_empty env p.screen p hscr]
      rw [if_neg (by
        rintro ⟨-, hbad | hbad⟩
        · rw [halive] at hbad
          exact hbad rfl
        · rw [streamUp_large] at hbad
          exact hls hbad)] at h2
      rw [if_neg (fun hcc => hne hcc.1)] at h2
      exact h2

/-- Environment for the routing witnesses: one participant, peer 1,
camera "c", screen "s". -/
def envW : List PartVideo := [⟨1, "c", "s"⟩]

/-- State for the routing witnesses: participant 1's row detached,
empty reverse index, no pin, nothing live. -/
def stateW : RoutingState := ⟨[(1, "")], [], "", []⟩

/-- Witness for C5: in `envW`/`stateW`, camera-up then screen-up and
screen-up then camera-up both leave row 1 attached to the screen, and
the single camera-up attaches the camera. -/
theorem c5_stream_up_attach_witness :
    ((applyStreamUp envW (applyStreamUp envW stateW "c") "s").rows.lookup 1
        = some "s")
    ∧ ((applyStreamUp envW (applyStreamUp envW stateW "s") "c").rows.lookup 1
        = some "s")
    ∧ ((applyStreamUp envW stateW "c").rows.lookup 1 = some "c") := by
  have h2 := c5_stream_up_attach.2 envW stateW ⟨1, "c", "s"⟩ ""
    (by decide) (by decide) (by decide) (by decide) (by decide)
    (by decide) (by decide)
  have h1 := c5_stream_up_attach.1 envW stateW "c" ⟨1, "c", "s"⟩ ""
    (by decide) (by decide) (by decide)
  refine ⟨h2.1, h2.2, ?_⟩
  rw [h1]
  decide

/-- C6: on a stream-down for a non-pinned endpoint `e`, when no row is
attached to `e` the rows, reverse index and pin are untouched;
otherwise the attached row is re-routed to the owner's other live
endpoint when the pin does not conflict (screen for a camera going
down, camera for a screen going down) and detached when the owner is
gone or no such endpoint streams; rows of other peers are untouched. -/
theorem c6_stream_down_reroute :
    (∀ (env : List PartVideo) (s : RoutingState) (e : String),
      e ≠ s.large →
      s.index.lookup e = none →
      (applyStreamDown env s e).rows = s.rows
        ∧ (applyStreamDown env s e).index = s.index
        ∧ (applyStreamDown env s e).large = s.large)
    ∧ (∀ (env : List PartVideo) (s : RoutingState) (e : String)
      (peer : Nat),
      e ≠ s.large →
      s.index.lookup e = some peer →
      ∀ q, (applyStreamDown env s e).rows.lookup q
        = if q = peer then
            (s.rows.lookup q).map (fun _ =>
              match env.find? (fun p => p.peer == peer) with
              | none => ""
              | some p =>
                if e = p.camera ∧ s.large ≠ p.screen
                    ∧ streamsVideoL (s.live.filter (fun x => x ≠ e))
                      p.screen
                then p.screen
                else if e = p.screen ∧ s.large ≠ p.camera
                    ∧ streamsVideoL (s.live.filter (fun x => x ≠ e))
                      p.camera
                then p.camera
                else "")
          else s.rows.lookup q) := by
  constructor
  · intro env s e _ hnone
    simp [applyStreamDown, hnone]
  · intro env s e peer _ hidx q
    simp only [applyStreamDown, hidx, RoutingState.streams]
    cases hfind : env.find? (fun p => p.peer == peer) with
    | none =>
        simp only [lookup_setRow]
    | some p =>
        simp only [Option.map]
        by_cases h1 : e = p.camera ∧ s.large ≠ p.screen
            ∧ streamsVideoL (s.live.filter (fun x => x ≠ e)) p.screen
              = true
        · rw [if_pos h1, lookup_setRow]
          by_cases hq : q = peer
          · rw [if_pos hq, if_pos hq, if_pos h1]
            cases List.lookup q s.rows <;> rfl
          · rw [if_neg hq, if_neg hq]
        · rw [if_neg h1]
          by_cases h2 : e = p.screen ∧ s.large ≠ p.camera
              ∧ streamsVideoL (s.live.filter (fun x => x ≠ e)) p.camera
                = true
          · rw [if_pos h2, lookup_setRow]
            by_cases hq : q = peer
            · rw [if_pos hq, if_pos hq, if_neg h1, if_pos h2]
              cases List.lookup q s.rows <;> rfl
            · rw [if_neg hq, if_neg hq]
          · rw [if_neg h2, lookup_setRow]
            by_cases hq : q = peer
            · rw [if_pos hq, if_pos hq, if_neg h1, if_neg h2]
              cases List.lookup q s.rows <;> rfl
            · rw [if_neg hq, if_neg hq]

/-- State for the C6 witness: row 1 shows "c", which is indexed, no
pin, both "c" and "s" live. -/
def stateW2 : RoutingState := ⟨[(1, "c")], [("c", 1)], "", ["c", "s"]⟩

/-- Witness for C6: in `envW`/`stateW2`, "c" going down re-routes row 1
to the still-live screen "s"; in `stateW` (empty index), "c" going
down touches nothing. -/
theorem c6_stream_down_reroute_witness :
    ((applyStreamDown envW stateW2 "c").rows.lookup 1 = some "s")
    ∧ ((applyStreamDown envW stateW "c").rows = stateW.rows
      ∧ (applyStreamDown envW stateW "c").index = stateW.index
      ∧ (applyStreamDown envW stateW "c").large = stateW.large) := by
  have h2 := c6_stream_down_reroute.2 envW stateW2 "c" 1
    (by decide) (by decide) 1
  have h1 := c6_stream_down_reroute.1 envW stateW "c"
    (by decide) (by decide)
  refine ⟨?_, h1⟩
  rw [h2]
  decide

/-- Phase 1 of the pin-change handler: hand the still-streaming old pin
back to its owner's row. -/
def pinReturnOld (env : List PartVideo) (s : RoutingState) : RoutingState :=
  if s.streams s.large then
    match findParticipant env s.large with
    | some p =>
      match s.rows.lookup p.peer with
      | some current =>
          if current = "" ∨ (p.screen = s.large ∧ p.camera = current)
          then setRowVideoEndpoint s p.peer s.large
          else s
      | none => s
    | none => s
  else s

/-- Phase 2 of the pin-change handler, on a state whose pin is already
the new endpoint: take the new pin away from its owner's row, falling
back to the owner's other live endpoint. -/
def pinStripNew (env : List PartVideo) (s : RoutingState) : RoutingState :=
  match findParticipant env s.large with
  | some p =>
    match s.rows.lookup p.peer with
    | some current =>
        if current = s.large then
          if s.large = p.camera ∧ s.streams p.screen then
            setRowVideoEndpoint s p.peer p.screen
          else if s.large = p.screen ∧ s.streams p.camera then
            setRowVideoEndpoint s p.peer p.camera
          else
            setRowVideoEndpoint s p.peer ""
        else s
    | none => s
  | none => s

theorem applyPinChange_decomp (env : List PartVideo) (s : RoutingState)
    (newep : String) (h : newep ≠ s.large) :
    applyPinChange env s newep
      = pinStripNew env { pinReturnOld env s with large := newep } := by
  unfold applyPinChange pinReturnOld pinStripNew
  rw [if_neg h]

theorem pinStripNew_large (env : List PartVideo) (s : RoutingState) :
    (pinStripNew env s).large = s.large := by
  unfold pinStripNew
  cases findParticipant env s.large with
  | none => rfl
  | some p =>
      simp only
      cases s.rows.lookup p.peer with
      | none => rfl
      | some cur =>
          simp only
          split
          · split
            · simp [setRowVideoEndpoint]
            · split
              · simp [setRowVideoEndpoint]
              · simp [setRowVideoEndpoint]
          · rfl

theorem pinReturnOld_not_streaming (env : List PartVideo)
    (s : RoutingState) (h : s.streams s.large = false) :
    pinReturnOld env s = s := by
  unfold pinReturnOld
  rw [if_neg (by simp [h])]

theorem pinReturnOld_owner (env : List PartVideo) (s : RoutingState)
    (p : PartVideo) (cur : String)
    (hst : s.streams s.large = true)
    (hp : findParticipant env s.large = some p)
    (hc : s.rows.lookup p.peer = some cur) :
    (pinReturnOld env s).rows.lookup p.peer
      = some (if cur = "" ∨ (p.screen = s.large ∧ p.camera = cur)
          then s.large else cur) := by
  unfold pinReturnOld
  rw [if_pos hst, hp]
  simp only [hc]
  by_cases hcond : cur = "" ∨ (p.screen = s.large ∧ p.camera = cur)
  · rw [if_pos hcond, if_pos hcond, lookup_setRow]
    simp [hc]
  · rw [if_neg hcond, if_neg hcond]
    exact hc

theorem pinReturnOld_other (env : List PartVideo) (s : RoutingState)
    (q : Nat)
    (h : ∀ p, findParticipant env s.large = some p → q ≠ p.peer) :
    (pinReturnOld env s).rows.lookup q = s.rows.lookup q := by
  unfold pinReturnOld
  by_cases hst : s.streams s.large = true
  · rw [if_pos hst]
    cases hp : findParticipant env s.large with
    | none => rfl
    | some p =>
        simp only
        cases hc : s.rows.lookup p.peer with
        | none => rfl
        | some cur =>
            simp only
            by_cases hcond : cur = "" ∨ (p.screen = s.large ∧ p.camera = cur)
            · rw [if_pos hcond, lookup_setRow, if_neg (h p hp)]
            · rw [if_neg hcond]
  · rw [if_neg hst]

theorem pinStripNew_owner (env : List PartVideo) (s : RoutingState)
    (p : PartVideo) (cur : String)
    (hp : findParticipant env s.large = some p)
    (hc : s.rows.lookup p.peer = some cur) :
    (pinStripNew env s).rows.lookup p.peer
      = some (
        if cur = s.large then
          (if s.large = p.camera ∧ s.streams p.screen then p.screen
           else if s.large = p.screen ∧ s.streams p.camera then p.camera
           else "")
        else cur) := by
  unfold pinStripNew
  rw [hp]
  simp only [hc]
  by_cases hcur : cur = s.large
  · rw [if_pos hcur, if_pos hcur]
    by_cases h1 : s.large = p.camera ∧ s.streams p.screen = true
    · rw [if_pos h1, if_pos h1, lookup_setRow]
      simp [hc]
    · rw [if_neg h1, if_neg h1]
      by_cases h2 : s.large = p.screen ∧ s.streams p.camera = true
      · rw [if_pos h2, if_pos h2, lookup_setRow]
        simp [hc]
      · rw [if_neg h2, if_neg h2, lookup_setRow]
        simp [hc]
  · rw [if_neg hcur, if_neg hcur]
    exact hc

theorem pinStripNew_other (env : List PartVideo) (s : RoutingState)
    (q : Nat)
    (h : ∀ p, findParticipant env s.large = some p → q ≠ p.peer) :
    (pinStripNew env s).rows.lookup q = s.rows.lookup q := by
  unfold pinStripNew
  cases hp : findParticipant env s.large with
  | none => rfl
  | some p =>
      simp only
      cases hc : s.rows.lookup p.peer with
      | none => rfl
      | some cur =>
          simp only
          by_cases hcur : cur = s.large
          · rw [if_pos hcur]
            by_cases h1 : s.large = p.camera ∧ s.streams p.screen = true
            · rw [if_pos h1, lookup_setRow, if_neg (h p hp)]
            · rw [if_neg h1]
              by_cases h2 : s.large = p.screen ∧ s.streams p.camera = true
              · rw [if_pos h2, lookup_setRow, if_neg (h p hp)]
              · rw [if_neg h2, lookup_setRow, if_neg (h p hp)]
          · rw [if_neg hcur]


/-- The pin-change procedure as claim C4 states it: the row currently
showing the old pin falls back to the same participant's other live
endpoint or detaches; then the new pin's owner's row, unless it already
shows the new pin, has the new pin attached — the screen instead when
the new pin is the camera while the screen is also live. -/
def applyPinChangeClaim (env : List PartVideo) (s : RoutingState)
    (newep : String) : RoutingState :=
  if newep = s.large then s
  else
    let s1 :=
      if s.streams s.large then
        match s.rows.find? (fun kv => kv.2 == s.large) with
        | some kv =>
            match findParticipant env s.large with
            | some p =>
                if s.large = p.screen ∧ s.streams p.camera then
                  setRowVideoEndpoint s kv.1 p.camera
                else if s.large = p.camera ∧ s.streams p.screen then
                  setRowVideoEndpoint s kv.1 p.screen
                else setRowVideoEndpoint s kv.1 ""
            | none => setRowVideoEndpoint s kv.1 ""
        | none => s
      else s
    let s2 := { s1 with large := newep }
    match findParticipant env newep with
    | some p =>
        match s2.rows.lookup p.peer with
        | some current =>
            if current = newep then s2
            else if newep = p.camera ∧ s2.streams p.screen then
              setRowVideoEndpoint s2 p.peer p.screen
            else setRowVideoEndpoint s2 p.peer newep
        | none => s2
    | none => s2

/-- State for the C4 counterexample: participant 1's camera "c" is live
and pinned, their row shows nothing. -/
def sC4 : RoutingState := ⟨[(1, "")], [], "c", ["c"]⟩

/-- C4: refuted as stated. Unpinning the live camera "c" makes the code
hand "c" back to its owner's empty row, while the claim's procedure
(no row was showing "c") changes nothing. -/
theorem c4_counterexample :
    ("" : String) ≠ sC4.large
    ∧ (applyPinChange envW sC4 "").rows.lookup 1 = some "c"
    ∧ (applyPinChangeClaim envW sC4 "").rows.lookup 1 = some "" := by
  refine ⟨by decide, by decide, by decide⟩

/-- C4 (amended): a pin change from `old` to `new` is the composition
of two phases — first, when `old` is still streaming, `old` is attached
to the row of its OWNER exactly when that row shows nothing or shows
the owner's camera while `old` is the owner's screen (not: the row
showing `old` falls back); then, with the pin now `new`, the row of the
owner of `new`, exactly when it shows `new`, falls back to the owner's
other live endpoint or detaches (not: `new` is attached). Rows of other
peers are untouched by either phase, and the pin ends at `new`. -/
theorem c4_pin_change_amended :
    (∀ (env : List PartVideo) (s : RoutingState) (newep : String),
      newep ≠ s.large →
      applyPinChange env s newep
        = pinStripNew env { pinReturnOld env s with large := newep })
    ∧ (∀ (env : List PartVideo) (s : RoutingState) (newep : String),
      newep ≠ s.large → (applyPinChange env s newep).large = newep)
    ∧ (∀ (env : List PartVideo) (s : RoutingState),
      s.streams s.large = false → pinReturnOld env s = s)
    ∧ (∀ (env : List PartVideo) (s : RoutingState) (p : PartVideo)
        (cur : String),
      s.streams s.large = true →
      findParticipant env s.large = some p →
      s.rows.lookup p.peer = some cur →
      (pinReturnOld env s).rows.lookup p.peer
        = some (if cur = "" ∨ (p.screen = s.large ∧ p.camera = cur)
            then s.large else cur))
    ∧ (∀ (env : List PartVideo) (s : RoutingState) (q : Nat),
      (∀ p, findParticipant env s.large = some p → q ≠ p.peer) →
      (pinReturnOld env s).rows.lookup q = s.rows.lookup q)
    ∧ (∀ (env : List PartVideo) (s : RoutingState) (p : PartVideo)
        (cur : String),
      findParticipant env s.large = some p →
      s.rows.lookup p.peer = some cur →
      (pinStripNew env s).rows.lookup p.peer
        = some (
          if cur = s.large then
            (if s.large = p.camera ∧ s.streams p.screen then p.screen
             else if s.large = p.screen ∧ s.streams p.camera then p.camera
             else "")
          else cur))
    ∧ (∀ (env : List PartVideo) (s : RoutingState) (q : Nat),
      (∀ p, findParticipant env s.large = some p → q ≠ p.peer) →
      (pinStripNew env s).rows.lookup q = s.rows.lookup q) :=
  ⟨applyPinChange_decomp,
   fun env s newep h => by
     rw [applyPinChange_decomp env s newep h, pinStripNew_large],
   pinReturnOld_not_streaming,
   pinReturnOld_owner,
   pinReturnOld_other,
   pinStripNew_owner,
   pinStripNew_other⟩

/-- Witness for C4 (amended) at `envW`/`sC4`, new pin empty: the
decomposition holds and phase 1 hands "c" back to row 1. -/
theorem c4_pin_change_amended_witness :
    (applyPinChange envW sC4 ""
      = pinStripNew envW { pinReturnOld envW sC4 with large := "" })
    ∧ (pinReturnOld envW sC4).rows.lookup 1 = some "c" := by
  constructor
  · exact c4_pin_change_amended.1 envW sC4 "" (by decide)
  · have h := (c4_pin_change_amended.2.2.2.1) envW sC4 ⟨1, "c", "s"⟩ ""
      (by decide) (by decide) (by decide)
    rw [h]
    decide

/-- A participant owns an endpoint key when it is their camera or
screen. -/
def owns (p : PartVideo) (e : String) : Prop :=
  e = p.camera ∨ e = p.screen

/-- Environment well-formedness: a non-empty endpoint key belongs to at
most one participant. -/
def EnvWf (env : List PartVideo) : Prop :=
  ∀ p ∈ env, ∀ q ∈ env, ∀ e, e ≠ "" → owns p e → owns q e → p = q

/-- Routing-state invariant: row keys are distinct, every attachment is
empty or owned by the row's participant, and the reverse index is the
exact graph of the non-empty attachments. -/
def Inv (env : List PartVideo) (s : RoutingState) : Prop :=
  s.rows.Pairwise (fun a b => a.1 ≠ b.1)
  ∧ (∀ kv ∈ s.rows, kv.2 = ""
      ∨ ∃ p, p ∈ env ∧ p.peer = kv.1 ∧ owns p kv.2)
  ∧ (∀ ep ∈ s.index, ep.1 ≠ "" ∧ s.rows.lookup ep.2 = some ep.1)
  ∧ (∀ kv ∈ s.rows, kv.2 ≠ "" → (kv.2, kv.1) ∈ s.index)
  ∧ s.index.Pairwise (fun a b => a.1 ≠ b.1)

theorem lookup_mem {α β : Type} [BEq α] [LawfulBEq α]
    {l : List (α × β)} {k : α} {v : β} (h : l.lookup k = some v) :
    (k, v) ∈ l := by
  induction l with
  | nil => simp [List.lookup] at h
  | cons kv t ih =>
    rw [List.lookup] at h
    by_cases hk : (k == kv.1) = true
    · rw [hk] at h
      simp only [Option.some.injEq] at h
      subst h
      have : k = kv.1 := eq_of_beq hk
      subst this
      exact List.mem_cons_self _ _
    · rw [Bool.eq_false_iff.mpr hk] at h
      exact List.mem_cons_of_mem _ (ih h)

theorem mem_lookup {α β : Type} [BEq α] [LawfulBEq α]
    {l : List (α × β)} (hd : l.Pairwise (fun a b => a.1 ≠ b.1))
    {k : α} {v : β} (h : (k, v) ∈ l) :
    l.lookup k = some v := by
  induction l with
  | nil => simp at h
  | cons kv t ih =>
    rcases List.mem_cons.mp h with heq | hmem
    · subst heq
      rw [List.lookup]
      simp
    · have hne : kv.1 ≠ k := by
        have := (List.pairwise_cons.mp hd).1 _ hmem
        simpa using this
      rw [List.lookup]
      have : (k == kv.1) = false := by
        simpa using fun hh => hne hh.symm
      rw [this]
      exact ih (List.pairwise_cons.mp hd).2 hmem

theorem map_eq_self {α : Type} {l : List α} {f : α → α}
    (h : ∀ a ∈ l, f a = a) : l.map f = l := by
  induction l with
  | nil => rfl
  | cons a t ih =>
    rw [List.map_cons, h a (List.mem_cons_self _ _),
      ih (fun b hb => h b (List.mem_cons_of_mem _ hb))]

theorem lookup_none_of_not_mem {α β : Type} [BEq α] [LawfulBEq α]
    {l : List (α × β)} {k : α} (h : ∀ v, (k, v) ∉ l) :
    l.lookup k = none := by
  cases hl : l.lookup k with
  | none => rfl
  | some v => exact absurd (lookup_mem hl) (h v)

theorem setRow_preserves_inv (env : List PartVideo) (s : RoutingState)
    (peer : Nat) (endpoint : String) (was0 : String)
    (hwf : EnvWf env) (hinv : Inv env s)
    (hl : s.rows.lookup peer = some was0)
    (hown : endpoint = ""
      ∨ ∃ p, p ∈ env ∧ p.peer = peer ∧ owns p endpoint) :
    Inv env (setRowVideoEndpoint s peer endpoint) := by
  obtain ⟨hdk, hrown, hidx1, hidx2, hidk⟩ := hinv
  have hval : ∀ kv : Nat × String, kv ∈ s.rows → kv.1 = peer →
      kv = (peer, was0) := by
    intro kv hm hk
    have hm' : (kv.1, kv.2) ∈ s.rows := hm
    have hlk := mem_lookup hdk hm'
    rw [hk, hl] at hlk
    have : kv.2 = was0 := by injection hlk.symm
    rw [Prod.ext_iff]
    exact ⟨hk, this⟩
  by_cases hEq : was0 = endpoint
  · have hrows_eq : s.rows.map
        (fun kv => if kv.1 = peer then (peer, endpoint) else kv)
        = s.rows := by
      apply map_eq_self
      intro kv hm
      by_cases hk : kv.1 = peer
      · rw [if_pos hk, hval kv hm hk, hEq]
      · rw [if_neg hk]
    have hss : setRowVideoEndpoint s peer endpoint = s := by
      unfold setRowVideoEndpoint
      rw [hl]
      simp only [Option.getD_some]
      rw [if_neg (by simp [hEq]), hrows_eq]
    rw [hss]
    exact ⟨hdk, hrown, hidx1, hidx2, hidk⟩
  · -- the attachment really changes
    have hdk' : (s.rows.map
        (fun kv => if kv.1 = peer then (peer, endpoint) else kv)).Pairwise
        (fun a b => a.1 ≠ b.1) := by
      refine (List.pairwise_map).mpr (hdk.imp ?_)
      intro a b h
      by_cases ha : a.1 = peer <;> by_cases hb : b.1 = peer <;>
        simp [ha, hb] at * <;> tauto
    have hrown' : ∀ kv ∈ s.rows.map
        (fun kv => if kv.1 = peer then (peer, endpoint) else kv),
        kv.2 = "" ∨ ∃ p, p ∈ env ∧ p.peer = kv.1 ∧ owns p kv.2 := by
      intro kv hm
      obtain ⟨kv0, hm0, rfl⟩ := List.mem_map.mp hm
      by_cases hk : kv0.1 = peer
      · rw [if_pos hk]
        rcases hown with he | ⟨p, hp, hpe, ho⟩
        · exact Or.inl he
        · exact Or.inr ⟨p, hp, hpe, ho⟩
      · rw [if_neg hk]
        exact hrown kv0 hm0
    have hlk : ∀ q, (s.rows.map
        (fun kv => if kv.1 = peer then (peer, endpoint) else kv)).lookup q
        = if q = peer then some endpoint else s.rows.lookup q := by
      intro q
      rw [lookup_map_update]
      by_cases hq : q = peer
      · subst hq
        rw [if_pos rfl, if_pos rfl, hl]
        rfl
      · rw [if_neg hq, if_neg hq]
    -- exclusivity of the old attachment
    have hexcl : ∀ kv, kv ∈ s.rows → kv.2 = was0 → was0 ≠ "" →
        kv.1 = peer := by
      intro kv hm hv hne
      rcases hrown kv hm with h0 | ⟨p, hp, hpe, ho⟩
      · rw [hv] at h0; exact absurd h0 hne
      · have hm2 : (peer, was0) ∈ s.rows := lookup_mem hl
        rcases hrown _ hm2 with h0 | ⟨q, hq, hqe, ho2⟩
        · exact absurd h0 hne
        · rw [hv] at ho
          have hpq := hwf p hp q hq was0 hne ho ho2
          rw [← hpe, hpq]
          exact hqe
    -- generic assembly over the filtered old index
    have hGen : ∀ (I1 : List (String × Nat)),
        (∀ ep, ep ∈ I1 → ep ∈ s.index ∧ (was0 ≠ "" → ep.1 ≠ was0)) →
        I1.Pairwise (fun a b => a.1 ≠ b.1) →
        (∀ kv, kv ∈ s.rows → kv.1 ≠ peer → kv.2 ≠ "" →
          (kv.2, kv.1) ∈ I1) →
        Inv env { s with
          rows := s.rows.map
            (fun kv => if kv.1 = peer then (peer, endpoint) else kv)
          index := if endpoint ≠ "" then
              (if (I1.lookup endpoint).isSome then I1
               else (endpoint, peer) :: I1)
            else I1 } := by
      intro I1 hsub hpair hkeep
      have hne2gen : ∀ ep : String × Nat, ep ∈ I1 → ep.2 ≠ peer := by
        intro ep hm hp2
        obtain ⟨hmem, himp⟩ := hsub ep hm
        obtain ⟨hne, hlkold⟩ := hidx1 ep hmem
        rw [hp2, hl] at hlkold
        have hew : ep.1 = was0 := by
          injection hlkold with hh
          exact hh.symm
        by_cases hw : was0 = ""
        · rw [hw] at hew; exact hne hew
        · exact (himp hw) hew
      by_cases hEp : endpoint = ""
      · rw [if_neg (by simp [hEp])]
        refine ⟨hdk', hrown', ?_, ?_, hpair⟩
        · intro ep hm
          obtain ⟨hmem, _⟩ := hsub ep hm
          obtain ⟨hne, hlkold⟩ := hidx1 ep hmem
          refine ⟨hne, ?_⟩
          rw [hlk ep.2, if_neg (hne2gen ep hm)]
          exact hlkold
        · intro kv hm hne
          obtain ⟨kv0, hm0, rfl⟩ := List.mem_map.mp hm
          by_cases hk : kv0.1 = peer
          · rw [if_pos hk] at hne
            exact absurd hEp hne
          · rw [if_neg hk] at hne ⊢
            exact hkeep kv0 hm0 hk hne
      · have hownP : ∃ p, p ∈ env ∧ p.peer = peer ∧ owns p endpoint :=
          hown.resolve_left hEp
        have hnotin : ∀ x, (endpoint, x) ∉ I1 := by
          intro x hx
          obtain ⟨hmem, -⟩ := hsub _ hx
          obtain ⟨hne, hlkold⟩ := hidx1 _ hmem
          have hmrow : (x, endpoint) ∈ s.rows := lookup_mem hlkold
          rcases hrown _ hmrow with h0 | ⟨q, hq, hqe, ho2⟩
          · exact hEp h0
          · obtain ⟨p, hp, hpe, ho⟩ := hownP
            have hpq := hwf p hp q hq endpoint hEp ho ho2
            have hxp : x = peer := by
              have : p.peer = q.peer := by rw [hpq]
              rw [hpe] at this
              rw [← this] at hqe
              exact hqe.symm ▸ rfl
            rw [hxp, hl] at hlkold
            have : was0 = endpoint := by injection hlkold
            exact hEq this
        have hlooknone : I1.lookup endpoint = none :=
          lookup_none_of_not_mem (fun v => hnotin v)
        rw [if_pos hEp, hlooknone]
        simp only [Option.isSome_none, Bool.false_eq_true, if_false]
        refine ⟨hdk', hrown', ?_, ?_, ?_⟩
        · intro ep hm
          rcases List.mem_cons.mp hm with heq | hm'
          · subst heq
            refine ⟨hEp, ?_⟩
            rw [hlk, if_pos rfl]
          · obtain ⟨hmem, _⟩ := hsub _ hm'
            obtain ⟨hne, hlkold⟩ := hidx1 _ hmem
            refine ⟨hne, ?_⟩
            rw [hlk ep.2, if_neg (hne2gen ep hm')]
            exact hlkold
        · intro kv hm hne
          obtain ⟨kv0, hm0, rfl⟩ := List.mem_map.mp hm
          by_cases hk : kv0.1 = peer
          · rw [if_pos hk]
            exact List.mem_cons_self _ _
          · rw [if_neg hk] at hne ⊢
            exact List.mem_cons_of_mem _ (hkeep kv0 hm0 hk hne)
        · refine List.pairwise_cons.mpr ⟨?_, hpair⟩
          intro ep hm'
          intro hbad
          have : ep = (endpoint, ep.2) := by
            rw [Prod.ext_iff]
            exact ⟨hbad.symm, rfl⟩
          rw [this] at hm'
          exact hnotin ep.2 hm'
    -- apply the assembly to the state the operation builds
    unfold setRowVideoEndpoint
    rw [hl]
    simp only [Option.getD_some]
    rw [if_pos hEq]
    apply hGen
    · intro ep hm
      by_cases hw : was0 = ""
      · rw [if_neg (by simp [hw])] at hm
        exact ⟨hm, fun hcontra => absurd hw hcontra⟩
      · rw [if_pos hw] at hm
        obtain ⟨hmem, hp⟩ := List.mem_filter.mp hm
        refine ⟨hmem, fun _ => ?_⟩
        simpa using hp
    · by_cases hw : was0 = ""
      · rw [if_neg (by simp [hw])]
        exact hidk
      · rw [if_pos hw]
        exact List.Pairwise.sublist (List.filter_sublist _) hidk
    · intro kv hm hkp hne
      by_cases hw : was0 = ""
      · rw [if_neg (by simp [hw])]
        exact hidx2 kv hm hne
      · rw [if_pos hw]
        refine List.mem_filter.mpr ⟨hidx2 kv hm hne, ?_⟩
        have : kv.2 ≠ was0 := by
          intro hv
          exact hkp (hexcl kv hm hv hw)
        simpa using this


theorem findParticipant_spec (env : List PartVideo) (e : String)
    (p : PartVideo) (h : findParticipant env e = some p) :
    e ≠ "" ∧ p ∈ env ∧ owns p e := by
  unfold findParticipant at h
  by_cases he : e = ""
  · rw [if_pos he] at h
    exact absurd h (by simp)
  · rw [if_neg he] at h
    refine ⟨he, List.mem_of_find?_eq_some h, ?_⟩
    have hp := List.find?_some h
    have hp2 : p.camera = e ∨ p.screen = e := by simpa using hp
    rcases hp2 with hc | hs
    · exact Or.inl hc.symm
    · exact Or.inr hs.symm

theorem inv_pinReturnOld (env : List PartVideo) (s : RoutingState)
    (hwf : EnvWf env) (hinv : Inv env s) :
    Inv env (pinReturnOld env s) := by
  unfold pinReturnOld
  by_cases hst : s.streams s.large = true
  · rw [if_pos hst]
    cases hp : findParticipant env s.large with
    | none => exact hinv
    | some p =>
      simp only
      cases hr : s.rows.lookup p.peer with
      | none => exact hinv
      | some cur =>
        simp only
        by_cases hc : cur = "" ∨ (p.screen = s.large ∧ p.camera = cur)
        · rw [if_pos hc]
          obtain ⟨hne, hmem, ho⟩ := findParticipant_spec env s.large p hp
          exact setRow_preserves_inv env s p.peer s.large cur hwf hinv hr
            (Or.inr ⟨p, hmem, rfl, ho⟩)
        · rw [if_neg hc]
          exact hinv
  · rw [if_neg hst]
    exact hinv

theorem inv_pinStripNew (env : List PartVideo) (s : RoutingState)
    (hwf : EnvWf env) (hinv : Inv env s) :
    Inv env (pinStripNew env s) := by
  unfold pinStripNew
  cases hp : findParticipant env s.large with
  | none => exact hinv
  | some p =>
    simp only
    cases hr : s.rows.lookup p.peer with
    | none => exact hinv
    | some cur =>
      simp only
      obtain ⟨hne, hmem, ho⟩ := findParticipant_spec env s.large p hp
      by_cases hc : cur = s.large
      · rw [if_pos hc]
        by_cases h1 : s.large = p.camera ∧ s.streams p.screen = true
        · rw [if_pos h1]
          exact setRow_preserves_inv env s p.peer p.screen cur hwf hinv hr
            (Or.inr ⟨p, hmem, rfl, Or.inr rfl⟩)
        · rw [if_neg h1]
          by_cases h2 : s.large = p.screen ∧ s.streams p.camera = true
          · rw [if_pos h2]
            exact setRow_preserves_inv env s p.peer p.camera cur hwf hinv
              hr (Or.inr ⟨p, hmem, rfl, Or.inl rfl⟩)
          · rw [if_neg h2]
            exact setRow_preserves_inv env s p.peer "" cur hwf hinv hr
              (Or.inl rfl)
      · rw [if_neg hc]
        exact hinv

theorem inv_pinChange (env : List PartVideo) (s : RoutingState)
    (newep : String) (hwf : EnvWf env) (hinv : Inv env s) :
    Inv env (applyPinChange env s newep) := by
  by_cases h : newep = s.large
  · unfold applyPinChange
    rw [if_pos h]
    exact hinv
  · rw [applyPinChange_decomp env s newep h]
    have h1 : Inv env (pinReturnOld env s) := inv_pinReturnOld env s hwf hinv
    exact inv_pinStripNew env _ hwf h1

theorem inv_streamUp (env : List PartVideo) (s : RoutingState)
    (e : String) (hwf : EnvWf env) (hinv : Inv env s) :
    Inv env (applyStreamUp env s e) := by
  simp only [applyStreamUp]
  cases hp : findParticipant env e with
  | none => exact hinv
  | some p =>
    simp only
    cases hr : s.rows.lookup p.peer with
    | none => exact hinv
    | some cur =>
      simp only
      obtain ⟨hne, hmem, ho⟩ := findParticipant_spec env e p hp
      set s0 : RoutingState := { s with live := insertLive e s.live }
      have hinv0 : Inv env s0 := hinv
      by_cases h1 : e = p.camera
          ∧ (¬ s0.streams p.screen = true ∨ s0.large = p.screen)
      · rw [if_pos h1]
        exact setRow_preserves_inv env s0 p.peer p.camera cur hwf hinv0 hr
          (Or.inr ⟨p, hmem, rfl, Or.inl rfl⟩)
      · rw [if_neg h1]
        by_cases h2 : e = p.screen ∧ s0.large ≠ p.screen
        · rw [if_pos h2]
          exact setRow_preserves_inv env s0 p.peer p.screen cur hwf hinv0
            hr (Or.inr ⟨p, hmem, rfl, Or.inr rfl⟩)
        · rw [if_neg h2]
          exact hinv

theorem inv_streamDown (env : List PartVideo) (s : RoutingState)
    (e : String) (hwf : EnvWf env) (hinv : Inv env s) :
    Inv env (applyStreamDown env s e) := by
  simp only [applyStreamDown]
  cases hi : s.index.lookup e with
  | none => exact hinv
  | some peer =>
    simp only
    set s0 : RoutingState :=
      { s with live := s.live.filter (fun x => x ≠ e) }
    have hinv0 : Inv env s0 := hinv
    have hmemi : (e, peer) ∈ s.index := lookup_mem hi
    have hlr : s.rows.lookup peer = some e := (hinv.2.2.1 _ hmemi).2
    cases hf : env.find? (fun p => p.peer == peer) with
    | none =>
        exact setRow_preserves_inv env s0 peer "" e hwf hinv0 hlr
          (Or.inl rfl)
    | some p =>
        simp only
        have hpm : p ∈ env := List.mem_of_find?_eq_some hf
        have hppb := List.find?_some hf
        have hpp : p.peer = peer := by simpa using hppb
        by_cases h1 : e = p.camera ∧ s0.large ≠ p.screen
            ∧ s0.streams p.screen = true
        · rw [if_pos h1]
          exact setRow_preserves_inv env s0 peer p.screen e hwf hinv0 hlr
            (Or.inr ⟨p, hpm, hpp, Or.inr rfl⟩)
        · rw [if_neg h1]
          by_cases h2 : e = p.screen ∧ s0.large ≠ p.camera
              ∧ s0.streams p.camera = true
          · rw [if_pos h2]
            exact setRow_preserves_inv env s0 peer p.camera e hwf hinv0
              hlr (Or.inr ⟨p, hpm, hpp, Or.inl rfl⟩)
          · rw [if_neg h2]
            exact setRow_preserves_inv env s0 peer "" e hwf hinv0 hlr
              (Or.inl rfl)

/-- Reachable routing states: rows start fully detached with an empty
reverse index; pin-change, stream-up and stream-down events (the latter
two never targeting the pinned endpoint, per the handler's assertion)
drive the state. -/
inductive Reach (env : List PartVideo) : RoutingState → Prop where
  | init : ∀ rows large live,
      rows.Pairwise (fun a b => a.1 ≠ b.1) →
      (∀ kv ∈ rows, kv.2 = "") →
      Reach env ⟨rows, [], large, live⟩
  | pin : ∀ s newep, Reach env s → Reach env (applyPinChange env s newep)
  | up : ∀ s e, Reach env s → e ≠ s.large →
      Reach env (applyStreamUp env s e)
  | down : ∀ s e, Reach env s → e ≠ s.large →
      Reach env (applyStreamDown env s e)

theorem inv_of_reach {env : List PartVideo} {s : RoutingState}
    (hwf : EnvWf env) (h : Reach env s) : Inv env s := by
  induction h with
  | init rows large live hdk hdet =>
      refine ⟨hdk, fun kv hm => Or.inl (hdet kv hm), ?_, ?_, ?_⟩
      · intro ep hm
        simp at hm
      · intro kv hm hne
        exact absurd (hdet kv hm) hne
      · exact List.Pairwise.nil
  | pin s newep _ ih => exact inv_pinChange env s newep hwf ih
  | up s e _ _ ih => exact inv_streamUp env s e hwf ih
  | down s e _ _ ih => exact inv_streamDown env s e hwf ih


/-- C7: endpoint exclusivity — in every reachable routing state no two
rows with distinct peers show the same non-empty endpoint key, and the
reverse index is exactly the graph of the non-empty attachments: each
entry is a non-empty key mapping to the unique row showing it, every
non-empty attachment is indexed, and index keys are distinct. -/
theorem c7_endpoint_exclusivity (env : List PartVideo) (s : RoutingState)
    (hwf : EnvWf env) (hr : Reach env s) :
    (∀ kv1, kv1 ∈ s.rows → ∀ kv2, kv2 ∈ s.rows → kv1.1 ≠ kv2.1 →
      kv1.2 = kv2.2 → kv1.2 = "")
    ∧ (∀ ep ∈ s.index, ep.1 ≠ "" ∧ s.rows.lookup ep.2 = some ep.1)
    ∧ (∀ kv ∈ s.rows, kv.2 ≠ "" → (kv.2, kv.1) ∈ s.index)
    ∧ s.index.Pairwise (fun a b => a.1 ≠ b.1) := by
  obtain ⟨hdk, hrown, hidx1, hidx2, hidk⟩ := inv_of_reach hwf hr
  refine ⟨?_, hidx1, hidx2, hidk⟩
  intro kv1 hm1 kv2 hm2 hpp hvv
  by_contra hne
  rcases hrown kv1 hm1 with h0 | ⟨p, hp, hpe, ho⟩
  · exact hne h0
  · rcases hrown kv2 hm2 with h0 | ⟨q, hq, hqe, ho2⟩
    · rw [hvv] at hne
      exact hne h0
    · rw [hvv] at ho
      have hpq := hwf p hp q hq kv2.2 (by rw [← hvv]; exact hne) ho ho2
      apply hpp
      rw [← hpe, hpq, hqe]

/-- Witness for C7 at the reachable state obtained from `stateW` by a
stream-up of "c". -/
theorem c7_endpoint_exclusivity_witness :
    (∀ kv1, kv1 ∈ (applyStreamUp envW stateW "c").rows →
      ∀ kv2, kv2 ∈ (applyStreamUp envW stateW "c").rows →
      kv1.1 ≠ kv2.1 → kv1.2 = kv2.2 → kv1.2 = "")
    ∧ (∀ ep ∈ (applyStreamUp envW stateW "c").index,
        ep.1 ≠ "" ∧ (applyStreamUp envW stateW "c").rows.lookup ep.2
          = some ep.1)
    ∧ (∀ kv ∈ (applyStreamUp envW stateW "c").rows, kv.2 ≠ "" →
        (kv.2, kv.1) ∈ (applyStreamUp envW stateW "c").index)
    ∧ (applyStreamUp envW stateW "c").index.Pairwise
        (fun a b => a.1 ≠ b.1) :=
  c7_endpoint_exclusivity envW (applyStreamUp envW stateW "c")
    (by
      intro p hp q hq e h1 h2 h3
      simp only [envW, List.mem_singleton] at hp hq
      rw [hp, hq])
    (Reach.up stateW "c"
      (Reach.init [(1, "")] "" [] (by decide) (by decide))
      (by decide))


/-- `kKeepRaisedHandStatusDuration = 3 * crl::time(1000)` milliseconds. -/
def kKeepRaisedHandStatusDuration : Nat := 3 * 1000

/-- The raised-hand expiry bookkeeping: `_raisedHandStatusRemoveAt`
(row id to absolute expiry), the one-shot
`_raisedHandStatusRemoveTimer` (absolute deadline when armed), and the
present rows' transient `_raisedHandStatus` flags (by row id; an id
absent from `flags` is a removed row). -/
structure ExpiryState where
  removeAt : List (Nat × Nat)
  timer : Option Nat
  flags : List (Nat × Bool)
deriving DecidableEq, Repr

/-- `Row::clearRaisedHandStatus` reached through `peerListFindRow`: a
present row's flag drops; an absent id touches nothing. -/
def clearFlag (flags : List (Nat × Bool)) (id : Nat) :
    List (Nat × Bool) :=
  flags.map (fun kv => if kv.1 = id then (id, false) else kv)

/-- The sweep loop of `scheduleRaisedHandStatusRemove`: expired entries
clear their row's flag and are erased, the rest stay in order. -/
def sweep (now : Nat) :
    List (Nat × Nat) → List (Nat × Bool) →
    List (Nat × Nat) × List (Nat × Bool)
  | [], flags => ([], flags)
  | (id, t) :: rest, flags =>
      if t ≤ now then sweep now rest (clearFlag flags id)
      else
        let pr := sweep now rest flags
        ((id, t) :: pr.1, pr.2)

/-- The `waiting` accumulator of the sweep loop: the least `t - now`
over the surviving entries, `0` when none survive. -/
def minWaiting (now : Nat) (entries : List (Nat × Nat)) : Nat :=
  entries.foldl
    (fun acc kv => if acc = 0 ∨ acc > kv.2 - now then kv.2 - now else acc)
    0

/-- `MembersController::scheduleRaisedHandStatusRemove`: sweep, then
arm the shared timer for `waiting` unless it is already armed sooner. -/
def scheduleRaisedHandStatusRemove (now : Nat) (s : ExpiryState) :
    ExpiryState :=
  let pr := sweep now s.removeAt s.flags
  let waiting := minWaiting now pr.1
  let timer' :=
    if waiting > 0 then
      match s.timer with
      | none => some (now + waiting)
      | some d => if d - now > waiting then some (now + waiting) else some d
    else s.timer
  ⟨pr.1, timer', pr.2⟩

/-- The timer firing: the one-shot timer is spent, then the sweep
callback runs and re-arms it. -/
def fireTimer (now : Nat) (s : ExpiryState) : ExpiryState :=
  scheduleRaisedHandStatusRemove now { s with timer := none }

/-- `MembersController::rowScheduleRaisedHandStatusRemove`: set or
refresh the row's absolute expiry to `now + 3000`, then run the shared
sweep. -/
def rowScheduleRaisedHandStatusRemove (now id : Nat) (s : ExpiryState) :
    ExpiryState :=
  let when := now + kKeepRaisedHandStatusDuration
  let removeAt' :=
    if (s.removeAt.lookup id).isSome then
      s.removeAt.map (fun kv => if kv.1 = id then (id, when) else kv)
    else s.removeAt ++ [(id, when)]
  scheduleRaisedHandStatusRemove now { s with removeAt := removeAt' }

theorem sweep_entries (now : Nat) (l : List (Nat × Nat))
    (f : List (Nat × Bool)) :
    (sweep now l f).1 = l.filter (fun kv => !decide (kv.2 ≤ now)) := by
  induction l generalizing f with
  | nil => simp [sweep]
  | cons kv rest ih =>
    obtain ⟨id, t⟩ := kv
    by_cases h : t ≤ now
    · simp [sweep, h, ih]
    · simp [sweep, h, ih]

theorem clearFlag_lookup (f : List (Nat × Bool)) (i q : Nat) :
    (clearFlag f i).lookup q
      = if q = i then (f.lookup q).map (fun _ => false)
        else f.lookup q := by
  unfold clearFlag
  rw [lookup_map_update]

theorem sweep_flags_cases (now : Nat) (l : List (Nat × Nat))
    (f : List (Nat × Bool)) (id : Nat) :
    (sweep now l f).2.lookup id = f.lookup id
    ∨ (sweep now l f).2.lookup id
        = (f.lookup id).map (fun _ => false) := by
  induction l generalizing f with
  | nil => exact Or.inl rfl
  | cons kv rest ih =>
    obtain ⟨i, t⟩ := kv
    by_cases h : t ≤ now
    · simp only [sweep, h, if_true]
      rcases ih (clearFlag f i) with hc | hc <;>
        rw [hc, clearFlag_lookup] <;>
        by_cases hi : id = i
      · rw [if_pos hi]
        exact Or.inr rfl
      · rw [if_neg hi]
        exact Or.inl rfl
      · rw [if_pos hi]
        right
        cases f.lookup id <;> simp
      · rw [if_neg hi]
        exact Or.inr rfl
    · simp only [sweep, h, if_false]
      exact ih f

theorem sweep_flags_none (now : Nat) (l : List (Nat × Nat))
    (f : List (Nat × Bool)) (id : Nat)
    (h : ∀ t, (id, t) ∈ l → ¬ t ≤ now) :
    (sweep now l f).2.lookup id = f.lookup id := by
  induction l generalizing f with
  | nil => rfl
  | cons kv rest ih =>
    obtain ⟨i, t⟩ := kv
    by_cases ht : t ≤ now
    · have hi : ¬ id = i := by
        intro he
        exact h t (by rw [he]; exact List.mem_cons_self _ _) ht
      simp only [sweep, ht, if_true]
      rw [ih (clearFlag f i)
        (fun t' hm => h t' (List.mem_cons_of_mem _ hm)),
        clearFlag_lookup, if_neg hi]
    · simp only [sweep, ht, if_false]
      exact ih f (fun t' hm => h t' (List.mem_cons_of_mem _ hm))

theorem sweep_flags_clear (now t : Nat) (l : List (Nat × Nat))
    (f : List (Nat × Bool)) (id : Nat)
    (hm : (id, t) ∈ l) (ht : t ≤ now) :
    (sweep now l f).2.lookup id
      = (f.lookup id).map (fun _ => false) := by
  induction l generalizing f with
  | nil => simp at hm
  | cons kv rest ih =>
    obtain ⟨i, t'⟩ := kv
    rcases List.mem_cons.mp hm with heq | hmem
    · have hi : i = id := by injection heq with h1 h2; exact h1.symm
      have htt : t' ≤ now := by
        have : t' = t := by injection heq with h1 h2; exact h2.symm
        omega
      simp only [sweep, htt, if_true]
      subst hi
      rcases sweep_flags_cases now rest (clearFlag f i) i with hc | hc <;>
        rw [hc, clearFlag_lookup, if_pos rfl]
      cases f.lookup i <;> simp
    · by_cases ht' : t' ≤ now
      · simp only [sweep, ht', if_true]
        rw [ih (clearFlag f i) hmem, clearFlag_lookup]
        by_cases hi : id = i
        · rw [if_pos hi]
          cases f.lookup id <;> simp
        · rw [if_neg hi]
      · simp only [sweep, ht', if_false]
        exact ih f hmem

theorem minWaiting_aux (now : Nat) (l : List (Nat × Nat))
    (hl : ∀ kv ∈ l, now < kv.2) :
    ∀ acc,
      (0 < acc →
        0 < l.foldl (fun acc kv =>
            if acc = 0 ∨ acc > kv.2 - now then kv.2 - now else acc) acc
        ∧ l.foldl (fun acc kv =>
            if acc = 0 ∨ acc > kv.2 - now then kv.2 - now else acc) acc
          ≤ acc)
      ∧ (∀ kv ∈ l,
          l.foldl (fun acc kv =>
            if acc = 0 ∨ acc > kv.2 - now then kv.2 - now else acc) acc
          ≤ kv.2 - now)
      ∧ (acc = 0 → l ≠ [] →
          0 < l.foldl (fun acc kv =>
            if acc = 0 ∨ acc > kv.2 - now then kv.2 - now else acc) acc) := by
  induction l with
  | nil =>
    intro acc
    exact ⟨fun h => ⟨h, le_refl _⟩, by simp, fun _ hne => absurd rfl hne⟩
  | cons hd tl ih =>
    intro acc
    have hhd : now < hd.2 := hl hd (List.mem_cons_self _ _)
    have htl : ∀ kv ∈ tl, now < kv.2 :=
      fun kv hm => hl kv (List.mem_cons_of_mem _ hm)
    have ihtl := ih htl
    simp only [List.foldl_cons]
    set acc1 := if acc = 0 ∨ acc > hd.2 - now then hd.2 - now else acc
      with hacc1
    have hpos1 : 0 < hd.2 - now := by omega
    have hacc1pos : 0 < acc1 := by
      rw [hacc1]
      split
      · exact hpos1
      · rename_i hcond
        push_neg at hcond
        omega
    have hacc1hd : acc1 ≤ hd.2 - now := by
      rw [hacc1]
      split
      · exact le_refl _
      · rename_i hcond
        push_neg at hcond
        omega
    have hfold := (ihtl acc1).1 hacc1pos
    refine ⟨?_, ?_, ?_⟩
    · intro haccpos
      refine ⟨hfold.1, le_trans hfold.2 ?_⟩
      rw [hacc1]
      split
      · rename_i hcond
        rcases hcond with hc | hc
        · omega
        · omega
      · exact le_refl _
    · intro kv hm
      rcases List.mem_cons.mp hm with heq | hmem
      · subst heq
        exact le_trans hfold.2 hacc1hd
      · exact (ihtl acc1).2.1 kv hmem
    · intro _ _
      exact hfold.1

theorem minWaiting_pos (now : Nat) (l : List (Nat × Nat))
    (hl : ∀ kv ∈ l, now < kv.2) (hne : l ≠ []) :
    0 < minWaiting now l :=
  (minWaiting_aux now l hl 0).2.2 rfl hne

theorem minWaiting_le (now : Nat) (l : List (Nat × Nat))
    (hl : ∀ kv ∈ l, now < kv.2) :
    ∀ kv ∈ l, minWaiting now l ≤ kv.2 - now :=
  (minWaiting_aux now l hl 0).2.1


theorem pairwise_keys_update {β : Type} (l : List (Nat × β)) (p : Nat)
    (e : β) (h : l.Pairwise (fun a b => a.1 ≠ b.1)) :
    (l.map (fun kv => if kv.1 = p then (p, e) else kv)).Pairwise
      (fun a b => a.1 ≠ b.1) := by
  refine (List.pairwise_map).mpr (h.imp ?_)
  intro a b hab
  by_cases ha : a.1 = p <;> by_cases hb : b.1 = p <;>
    simp [ha, hb] <;> omega

theorem lookup_filter_keep {β : Type} (l : List (Nat × β))
    (pred : Nat × β → Bool)
    (hdk : l.Pairwise (fun a b => a.1 ≠ b.1)) (id : Nat) (v : β)
    (hl : l.lookup id = some v) (hp : pred (id, v) = true) :
    (l.filter pred).lookup id = some v :=
  mem_lookup (List.Pairwise.sublist (List.filter_sublist _) hdk)
    (List.mem_filter.mpr ⟨lookup_mem hl, hp⟩)

theorem lookup_filter_drop {β : Type} (l : List (Nat × β))
    (pred : Nat × β → Bool)
    (hdk : l.Pairwise (fun a b => a.1 ≠ b.1)) (id : Nat) (v : β)
    (hl : l.lookup id = some v) (hp : pred (id, v) = false) :
    (l.filter pred).lookup id = none := by
  apply lookup_none_of_not_mem
  intro u hu
  have hmem := (List.mem_filter.mp hu).1
  have hlu := mem_lookup hdk hmem
  rw [hl] at hlu
  have huv : u = v := by
    injection hlu with hh
    exact hh.symm
  have hpu := (List.mem_filter.mp hu).2
  rw [huv, hp] at hpu
  exact Bool.noConfusion hpu

theorem lookup_append_new {β : Type} (l : List (Nat × β)) (id : Nat)
    (w : β) (h : l.lookup id = none) :
    (l ++ [(id, w)]).lookup id = some w := by
  induction l with
  | nil =>
    rw [List.nil_append]
    exact lookup_cons_self id w []
  | cons kv t ih =>
    rw [List.lookup] at h
    by_cases hk : (id == kv.1) = true
    · rw [hk] at h
      exact absurd h (by simp)
    · have hkf : (id == kv.1) = false := Bool.eq_false_iff.mpr hk
      rw [hkf] at h
      rw [List.cons_append, List.lookup, hkf]
      exact ih h

theorem pairwise_keys_append_new {β : Type} (l : List (Nat × β))
    (id : Nat) (w : β) (hdk : l.Pairwise (fun a b => a.1 ≠ b.1))
    (h : l.lookup id = none) :
    (l ++ [(id, w)]).Pairwise (fun a b => a.1 ≠ b.1) := by
  rw [List.pairwise_append]
  refine ⟨hdk, by simp, ?_⟩
  intro a ha b hb
  have hbw : b = (id, w) := by simpa using hb
  rw [hbw]
  intro hbad
  have hlook := mem_lookup hdk (show (a.1, a.2) ∈ l from ha)
  rw [hbad, h] at hlook
  exact Option.noConfusion hlook

/-- The expiry set or refreshed by a raise lands at `now + 3000`. -/
theorem rowSchedule_lookup (now id : Nat) (s : ExpiryState)
    (hdk : s.removeAt.Pairwise (fun a b => a.1 ≠ b.1)) :
    (rowScheduleRaisedHandStatusRemove now id s).removeAt.lookup id
      = some (now + kKeepRaisedHandStatusDuration) := by
  unfold rowScheduleRaisedHandStatusRemove scheduleRaisedHandStatusRemove
  simp only [sweep_entries]
  by_cases hs : (s.removeAt.lookup id).isSome = true
  · rw [if_pos hs]
    obtain ⟨t, ht⟩ := Option.isSome_iff_exists.mp hs
    apply lookup_filter_keep _ _ (pairwise_keys_update _ _ _ hdk)
    · rw [lookup_map_update, if_pos rfl, ht]
      rfl
    · simp [kKeepRaisedHandStatusDuration]
  · rw [if_neg hs]
    have hnone : s.removeAt.lookup id = none :=
      Option.not_isSome_iff_eq_none.mp hs
    apply lookup_filter_keep _ _
      (pairwise_keys_append_new _ _ _ hdk hnone)
    · exact lookup_append_new _ _ _ hnone
    · simp [kKeepRaisedHandStatusDuration]


/-- C8: a raise schedules or refreshes the row's expiry to
`now + 3000` ms; a refresh before expiry only pushes it forward; the
sweep never clears a flag before its entry's expiry (entry and flag
survive untouched); on the sweep every expired entry clears its row's
flag and is erased; and the timer fired and spent is re-armed exactly
at `now + min (expiry - now)` over the remaining entries — no later
than the soonest remaining expiry — or left idle when none remain. -/
theorem c8_raised_hand_expiry :
    (∀ (now id : Nat) (s : ExpiryState),
      s.removeAt.Pairwise (fun a b => a.1 ≠ b.1) →
      (rowScheduleRaisedHandStatusRemove now id s).removeAt.lookup id
        = some (now + kKeepRaisedHandStatusDuration))
    ∧ (∀ (now id t : Nat) (s : ExpiryState),
      s.removeAt.Pairwise (fun a b => a.1 ≠ b.1) →
      s.removeAt.lookup id = some t →
      t ≤ now + kKeepRaisedHandStatusDuration →
      ∀ u, (rowScheduleRaisedHandStatusRemove now id s).removeAt.lookup
          id = some u → t ≤ u)
    ∧ (∀ (now id t : Nat) (s : ExpiryState),
      s.removeAt.Pairwise (fun a b => a.1 ≠ b.1) →
      s.removeAt.lookup id = some t → now < t →
      (scheduleRaisedHandStatusRemove now s).removeAt.lookup id = some t
      ∧ (scheduleRaisedHandStatusRemove now s).flags.lookup id
          = s.flags.lookup id)
    ∧ (∀ (now id t : Nat) (s : ExpiryState),
      s.removeAt.Pairwise (fun a b => a.1 ≠ b.1) →
      (id, t) ∈ s.removeAt → t ≤ now →
      (scheduleRaisedHandStatusRemove now s).removeAt.lookup id = none
      ∧ (scheduleRaisedHandStatusRemove now s).flags.lookup id
          = (s.flags.lookup id).map (fun _ => false))
    ∧ (∀ (now : Nat) (s : ExpiryState),
      ((fireTimer now s).removeAt = [] → (fireTimer now s).timer = none)
      ∧ ((fireTimer now s).removeAt ≠ [] →
        (fireTimer now s).timer
          = some (now + minWaiting now (fireTimer now s).removeAt)
        ∧ 0 < minWaiting now (fireTimer now s).removeAt
        ∧ ∀ kv ∈ (fireTimer now s).removeAt,
            now + minWaiting now (fireTimer now s).removeAt ≤ kv.2)) := by
  have hrem : ∀ (now : Nat) (s : ExpiryState),
      (scheduleRaisedHandStatusRemove now s).removeAt
        = s.removeAt.filter (fun kv => !decide (kv.2 ≤ now)) := by
    intro now s
    unfold scheduleRaisedHandStatusRemove
    simp only [sweep_entries]
  have hfl : ∀ (now : Nat) (s : ExpiryState),
      (scheduleRaisedHandStatusRemove now s).flags
        = (sweep now s.removeAt s.flags).2 := by
    intro now s
    rfl
  have hlive : ∀ (now : Nat) (l : List (Nat × Nat)),
      ∀ kv ∈ l.filter (fun kv => !decide (kv.2 ≤ now)), now < kv.2 := by
    intro now l kv hm
    have := (List.mem_filter.mp hm).2
    simp at this
    omega
  refine ⟨fun now id s hdk => rowSchedule_lookup now id s hdk,
    ?_, ?_, ?_, ?_⟩
  · intro now id t s hdk hl hle u hu
    rw [rowSchedule_lookup now id s hdk] at hu
    have : u = now + kKeepRaisedHandStatusDuration := by
      injection hu with hh
      exact hh.symm
    omega
  · intro now id t s hdk hl hlt
    constructor
    · rw [hrem]
      apply lookup_filter_keep _ _ hdk _ _ hl
      simp
      omega
    · rw [hfl]
      apply sweep_flags_none
      intro t' hm
      have hl' := mem_lookup hdk hm
      rw [hl] at hl'
      have : t' = t := by
        injection hl' with hh
        exact hh.symm
      omega
  · intro now id t s hdk hm hle
    constructor
    · rw [hrem]
      apply lookup_filter_drop _ _ hdk _ t (mem_lookup hdk hm)
      simp
      omega
    · rw [hfl]
      exact sweep_flags_clear now t _ _ _ hm hle
  · intro now s
    have hfrem : (fireTimer now s).removeAt
        = s.removeAt.filter (fun kv => !decide (kv.2 ≤ now)) := by
      unfold fireTimer
      rw [hrem]
    constructor
    · intro hempty
      rw [hfrem] at hempty
      unfold fireTimer scheduleRaisedHandStatusRemove
      simp only [sweep_entries]
      rw [hempty]
      simp [minWaiting]
    · intro hne
      rw [hfrem] at hne
      have hlv := hlive now s.removeAt
      have hwpos : 0 < minWaiting now
          (s.removeAt.filter (fun kv => !decide (kv.2 ≤ now))) :=
        minWaiting_pos now _ hlv hne
      have hwle := minWaiting_le now _ hlv
      refine ⟨?_, ?_, ?_⟩
      · unfold fireTimer scheduleRaisedHandStatusRemove
        simp only [sweep_entries]
        rw [if_pos hwpos]
      · rw [hfrem]
        exact hwpos
      · rw [hfrem]
        intro kv hm
        have h1 := hwle kv hm
        have h2 := hlv kv hm
        omega

/-- Witness for C8: at concrete inputs, a raise at time 100 lands the
expiry at 3100; a sweep at 200 keeps entry and flag; a sweep at 4000
clears and erases; a fire with one remaining entry re-arms the timer at
its expiry. -/
theorem c8_raised_hand_expiry_witness :
    ((rowScheduleRaisedHandStatusRemove 100 1
        ⟨[], none, [(1, true)]⟩).removeAt.lookup 1 = some 3100)
    ∧ ((scheduleRaisedHandStatusRemove 200
        ⟨[(1, 3100)], some 3100, [(1, true)]⟩).removeAt.lookup 1
          = some 3100
      ∧ (scheduleRaisedHandStatusRemove 200
        ⟨[(1, 3100)], some 3100, [(1, true)]⟩).flags.lookup 1
          = some true)
    ∧ ((scheduleRaisedHandStatusRemove 4000
        ⟨[(1, 3100)], some 3100, [(1, true)]⟩).removeAt.lookup 1 = none
      ∧ (scheduleRaisedHandStatusRemove 4000
        ⟨[(1, 3100)], some 3100, [(1, true)]⟩).flags.lookup 1
          = some false)
    ∧ ((fireTimer 3100 ⟨[(1, 3100), (2, 5000)], some 3100,
        [(1, true), (2, true)]⟩).timer = some 5000) := by
  have h1 := c8_raised_hand_expiry.1 100 1 ⟨[], none, [(1, true)]⟩
    (by decide)
  have h3 := c8_raised_hand_expiry.2.2.1 200 1 3100
    ⟨[(1, 3100)], some 3100, [(1, true)]⟩ (by decide) (by decide)
    (by decide)
  have h4 := c8_raised_hand_expiry.2.2.2.1 4000 1 3100
    ⟨[(1, 3100)], some 3100, [(1, true)]⟩ (by decide) (by decide)
    (by decide)
  have h5 := (c8_raised_hand_expiry.2.2.2.2 3100
    ⟨[(1, 3100), (2, 5000)], some 3100, [(1, true), (2, true)]⟩).2
    (by decide)
  refine ⟨by rw [h1]; decide, ⟨by rw [h3.1], by rw [h3.2]; decide⟩,
    ⟨by rw [h4.1], by rw [h4.2]; decide⟩, ?_⟩
  rw [h5.1]
  decide


/-- The ordering-controller state for the menu-deferral logic: the row
list, whether a popup menu is showing (`_menu`), the deferred-check set
`_menuCheckRowsAfterHidden` (a `base::flat_set`, kept sorted by
identity), and the moderation capability. -/
structure MenuState where
  rows : List Row
  menu : Bool
  menuCheckRowsAfterHidden : List Nat
  canManage : Bool
deriving DecidableEq, Repr

/-- `base::flat_set::emplace`: insert keeping the set sorted by key, a
no-op on a present key. -/
def flatSetInsert (x : Nat) : List Nat → List Nat
  | [] => [x]
  | y :: ys =>
      if x < y then x :: y :: ys
      else if x = y then y :: ys
      else y :: flatSetInsert x ys

/-- `findRow` by identity: the position of the peer's row. -/
def findRowIdx (rows : List Row) (peer : Nat) : Option Nat :=
  rows.findIdx? (fun r => r.peer == peer)

/-- `checkRowPosition` reached through `findRow`: resort when the
identity's row exists, else leave the rows alone. -/
def applyCheckRow (canManage : Bool) (rows : List Row) (peer : Nat) :
    List Row :=
  match findRowIdx rows peer with
  | some idx => checkRowPositionResort canManage rows idx
  | none => rows

/-- `MembersController::checkRowPosition` with the menu state: queue
the identity while a menu shows, resort otherwise. -/
def checkRowPositionMenu (s : MenuState) (peer : Nat) : MenuState :=
  if s.menu then
    { s with menuCheckRowsAfterHidden :=
        flatSetInsert peer s.menuCheckRowsAfterHidden }
  else
    { s with rows := applyCheckRow s.canManage s.rows peer }

/-- The menu-hidden callback of `rowClicked`: with the menu taken, each
queued identity is checked in the set's iteration order, and the queue
empties. -/
def closeMenu (s : MenuState) : MenuState :=
  { s with
    menu := false
    menuCheckRowsAfterHidden := []
    rows := s.menuCheckRowsAfterHidden.foldl
      (fun rows peer => applyCheckRow s.canManage rows peer) s.rows }

theorem flatSetInsert_mem (x : Nat) (l : List Nat) :
    x ∈ flatSetInsert x l := by
  induction l with
  | nil => simp [flatSetInsert]
  | cons y ys ih =>
    by_cases h1 : x < y
    · simp [flatSetInsert, h1]
    · by_cases h2 : x = y
      · simp [flatSetInsert, h1, h2]
      · simp only [flatSetInsert, h1, h2, if_false]
        exact List.mem_cons_of_mem _ ih

theorem flatSetInsert_mem_of (x w : Nat) (l : List Nat)
    (h : w ∈ flatSetInsert x l) : w = x ∨ w ∈ l := by
  induction l with
  | nil => simpa [flatSetInsert] using h
  | cons y ys ih =>
    by_cases h1 : x < y
    · simp only [flatSetInsert, h1, if_true] at h
      rcases List.mem_cons.mp h with h | h
      · exact Or.inl h
      · exact Or.inr h
    · by_cases h2 : x = y
      · subst h2
        simp [flatSetInsert] at h
        rcases h with h | h
        · exact Or.inr (by rw [h]; exact List.mem_cons_self _ _)
        · exact Or.inr (List.mem_cons_of_mem _ h)
      · simp only [flatSetInsert, h1, h2, if_false] at h
        rcases List.mem_cons.mp h with h | h
        · exact Or.inr (by rw [h]; exact List.mem_cons_self _ _)
        · rcases ih h with h | h
          · exact Or.inl h
          · exact Or.inr (List.mem_cons_of_mem _ h)

theorem flatSetInsert_idem (x : Nat) (l : List Nat) :
    flatSetInsert x (flatSetInsert x l) = flatSetInsert x l := by
  induction l with
  | nil => simp [flatSetInsert]
  | cons y ys ih =>
    by_cases h1 : x < y
    · simp [flatSetInsert, h1]
    · by_cases h2 : x = y
      · simp [flatSetInsert, h1, h2]
      · simp only [flatSetInsert, h1, h2, if_false]
        rw [ih]

theorem flatSetInsert_sorted (x : Nat) (l : List Nat)
    (h : l.Pairwise (fun a b => a < b)) :
    (flatSetInsert x l).Pairwise (fun a b => a < b) := by
  induction l with
  | nil => simp [flatSetInsert]
  | cons y ys ih =>
    obtain ⟨hy, hys⟩ := List.pairwise_cons.mp h
    by_cases h1 : x < y
    · simp only [flatSetInsert, h1, if_true]
      refine List.pairwise_cons.mpr ⟨?_, h⟩
      intro b hb
      rcases List.mem_cons.mp hb with hb | hb
      · rw [hb]; exact h1
      · exact lt_trans h1 (hy b hb)
    · by_cases h2 : x = y
      · simpa [flatSetInsert, h1, h2] using h
      · simp only [flatSetInsert, h1, h2, if_false]
        refine List.pairwise_cons.mpr ⟨?_, ih hys⟩
        intro b hb
        rcases flatSetInsert_mem_of x b ys hb with hb | hb
        · rw [hb]; omega
        · exact hy b hb

/-- Rows for the C9 counterexample: a non-speaking row above two
speaking rows, peers 3, 1, 2. -/
def c9Rows : List Row :=
  [⟨3, RState.Active, 0, false, false, 0, 0⟩,
   ⟨1, RState.Active, 0, true, true, 5, 0⟩,
   ⟨2, RState.Active, 0, true, true, 6, 0⟩]

/-- C9: refuted as stated. With the menu open on `c9Rows`, identities
collected in the order 2 then 1 are stored as the sorted set `[1, 2]`,
and the close-time flush checks 1 before 2, yielding order `[1, 2, 3]`,
while checking in the collected order 2 then 1 yields `[2, 1, 3]`. -/
theorem c9_counterexample :
    ((checkRowPositionMenu (checkRowPositionMenu
        ⟨c9Rows, true, [], true⟩ 2) 1).menuCheckRowsAfterHidden
      = [1, 2])
    ∧ ((closeMenu (checkRowPositionMenu (checkRowPositionMenu
        ⟨c9Rows, true, [], true⟩ 2) 1)).rows.map (fun r => r.peer)
      = [1, 2, 3])
    ∧ ((applyCheckRow true (applyCheckRow true c9Rows 2) 1).map
        (fun r => r.peer) = [2, 1, 3]) := by
  refine ⟨by decide, by decide, by decide⟩

/-- C9 (amended): while a menu is open no resort applies — a check only
inserts the identity into the deferred set (a row queued twice is
queued once, and the set stays sorted by identity); on menu close the
queued identities are each checked once, in the set's ascending
identity order — not the collection order — against the rows as they
are at close time, and the queue empties. -/
theorem c9_menu_defer_amended :
    (∀ (s : MenuState) (peer : Nat), s.menu = true →
      (checkRowPositionMenu s peer).rows = s.rows
      ∧ (checkRowPositionMenu s peer).menu = true
      ∧ peer ∈ (checkRowPositionMenu s peer).menuCheckRowsAfterHidden
      ∧ checkRowPositionMenu (checkRowPositionMenu s peer) peer
          = checkRowPositionMenu s peer)
    ∧ (∀ (x : Nat) (l : List Nat), l.Pairwise (fun a b => a < b) →
        (flatSetInsert x l).Pairwise (fun a b => a < b))
    ∧ (∀ s : MenuState,
        (closeMenu s).menu = false
        ∧ (closeMenu s).menuCheckRowsAfterHidden = []
        ∧ (closeMenu s).rows
            = s.menuCheckRowsAfterHidden.foldl
                (fun rows peer => applyCheckRow s.canManage rows peer)
                s.rows) := by
  refine ⟨?_, fun x l h => flatSetInsert_sorted x l h,
    fun s => ⟨rfl, rfl, rfl⟩⟩
  intro s peer h
  refine ⟨?_, ?_, ?_, ?_⟩
  · simp [checkRowPositionMenu, h]
  · simp [checkRowPositionMenu, h]
  · simp only [checkRowPositionMenu, h, if_true]
    exact flatSetInsert_mem peer _
  · simp [checkRowPositionMenu, h, flatSetInsert_idem]

/-- Witness for C9 (amended), on the counterexample state. -/
theorem c9_menu_defer_amended_witness :
    ((checkRowPositionMenu ⟨c9Rows, true, [], true⟩ 2).rows = c9Rows)
    ∧ (2 ∈ (checkRowPositionMenu
        ⟨c9Rows, true, [], true⟩ 2).menuCheckRowsAfterHidden)
    ∧ ((flatSetInsert 1 [2]).Pairwise (fun a b => a < b)) := by
  have h1 := c9_menu_defer_amended.1 ⟨c9Rows, true, [], true⟩ 2 rfl
  have h2 := c9_menu_defer_amended.2.1 1 [2] (by decide)
  exact ⟨h1.1, h1.2.2.1, h2⟩


/-- The slice of `MembersController` state touched by `removeRow`: the
rows, `_soundingRowBySsrc` (ssrc to row identity) and
`_raisedHandStatusRemoveAt` (row id to absolute expiry). -/
structure ControllerState where
  rows : List Row
  soundingRowBySsrc : List (Nat × Nat)
  raisedHandStatusRemoveAt : List (Nat × Nat)
deriving DecidableEq, Repr

/-- `MembersController::removeRow`, by the row's identity and ssrc:
drop the sounding-scheduler entry for the ssrc and remove the row —
nothing else. -/
def removeRow (s : ControllerState) (peer ssrc : Nat) :
    ControllerState :=
  { s with
    soundingRowBySsrc :=
      s.soundingRowBySsrc.filter (fun kv => kv.1 ≠ ssrc)
    rows := s.rows.filter (fun r => r.peer ≠ peer) }

theorem lookup_filter_key_self {β : Type} (l : List (Nat × β))
    (k : Nat) :
    (l.filter (fun kv => kv.1 ≠ k)).lookup k = none := by
  apply lookup_none_of_not_mem
  intro v hv
  have := (List.mem_filter.mp hv).2
  simp at this

theorem lookup_filter_key_ne {β : Type} (l : List (Nat × β))
    (k q : Nat) (h : q ≠ k) :
    (l.filter (fun kv => kv.1 ≠ k)).lookup q = l.lookup q := by
  induction l with
  | nil => rfl
  | cons kv t ih =>
    obtain ⟨a, b⟩ := kv
    by_cases hk : a = k
    · rw [List.filter_cons, if_neg (by simp [hk]),
        lookup_cons_ne q a b t (by rw [hk]; exact h), ih]
    · rw [List.filter_cons, if_pos (by simp [hk])]
      by_cases hq : q = a
      · subst hq
        rw [lookup_cons_self, lookup_cons_self]
      · rw [lookup_cons_ne q a b _ hq, lookup_cons_ne q a b t hq, ih]

theorem scheduleRemove_removeAt (now : Nat) (es : ExpiryState) :
    (scheduleRaisedHandStatusRemove now es).removeAt
      = es.removeAt.filter (fun kv => !decide (kv.2 ≤ now)) := by
  unfold scheduleRaisedHandStatusRemove
  simp only [sweep_entries]

/-- The row of the C10 counterexample: identity 1, ssrc 7, with a
pending raised-hand expiry at 3100. -/
def c10Row : Row := ⟨1, RState.RaisedHand, 5, false, false, 7, 0⟩

/-- C10: refuted as stated. Removing row 1 drops its sounding entry and
the row itself, but its raised-hand expiry entry `(1, 3100)` survives
in `_raisedHandStatusRemoveAt`, still referencing the removed row. -/
theorem c10_counterexample :
    ((removeRow ⟨[c10Row], [(7, 1)], [(1, 3100)]⟩ 1 7).rows = [])
    ∧ ((removeRow ⟨[c10Row], [(7, 1)], [(1, 3100)]⟩ 1
        7).soundingRowBySsrc = [])
    ∧ ((removeRow ⟨[c10Row], [(7, 1)], [(1, 3100)]⟩ 1
        7).raisedHandStatusRemoveAt = [(1, 3100)]) := by
  refine ⟨by decide, by decide, by decide⟩

/-- C10 (amended): removing a row atomically removes its
sounding-scheduler membership (by ssrc, others untouched) and the row,
but does NOT cancel the raised-hand expiry entry — the map is left
exactly as it was; when the expiry later fires for an identity with no
present row, the entry is erased and no flag anywhere changes. -/
theorem c10_remove_row_amended :
    (∀ (s : ControllerState) (peer ssrc : Nat),
      (removeRow s peer ssrc).soundingRowBySsrc.lookup ssrc = none
      ∧ (∀ q, q ≠ ssrc →
          (removeRow s peer ssrc).soundingRowBySsrc.lookup q
            = s.soundingRowBySsrc.lookup q)
      ∧ (∀ r ∈ (removeRow s peer ssrc).rows, r.peer ≠ peer)
      ∧ (removeRow s peer ssrc).raisedHandStatusRemoveAt
          = s.raisedHandStatusRemoveAt)
    ∧ (∀ (now id t : Nat) (es : ExpiryState),
      es.removeAt.Pairwise (fun a b => a.1 ≠ b.1) →
      (id, t) ∈ es.removeAt → t ≤ now →
      es.flags.lookup id = none →
      (∀ kv ∈ es.removeAt, kv.1 ≠ id → now < kv.2) →
      (scheduleRaisedHandStatusRemove now es).removeAt.lookup id = none
      ∧ (∀ q, (scheduleRaisedHandStatusRemove now es).flags.lookup q
          = es.flags.lookup q)) := by
  constructor
  · intro s peer ssrc
    refine ⟨lookup_filter_key_self _ _, ?_, ?_, rfl⟩
    · intro q hq
      exact lookup_filter_key_ne _ _ _ hq
    · intro r hr
      have := (List.mem_filter.mp hr).2
      simpa using this
  · intro now id t es hdk hm hle hnone hothers
    constructor
    · rw [scheduleRemove_removeAt]
      apply lookup_filter_drop _ _ hdk _ t (mem_lookup hdk hm)
      simp
      omega
    · intro q
      show (sweep now es.removeAt es.flags).2.lookup q
        = es.flags.lookup q
      by_cases hq : q = id
      · subst hq
        rw [sweep_flags_clear now t _ _ _ hm hle, hnone]
        rfl
      · apply sweep_flags_none
        intro t' hm'
        have := hothers (q, t') hm' hq
        omega

/-- Witness for C10 (amended): removing row 1 empties its sounding
entry; the later expiry fire for the absent identity 1 erases the
entry and leaves the (empty) flag table untouched. -/
theorem c10_remove_row_amended_witness :
    ((removeRow ⟨[c10Row], [(7, 1)], [(1, 3100)]⟩ 1
      7).soundingRowBySsrc.lookup 7 = none)
    ∧ ((scheduleRaisedHandStatusRemove 4000
        ⟨[(1, 3100)], some 3100, []⟩).removeAt.lookup 1 = none)
    ∧ ((scheduleRaisedHandStatusRemove 4000
        ⟨[(1, 3100)], some 3100, []⟩).flags.lookup 1 = none) := by
  have h1 := (c10_remove_row_amended.1
    ⟨[c10Row], [(7, 1)], [(1, 3100)]⟩ 1 7).1
  have h2 := c10_remove_row_amended.2 4000 1 3100
    ⟨[(1, 3100)], some 3100, []⟩ (by decide) (by decide) (by decide)
    (by decide) (by decide)
  refine ⟨h1, h2.1, ?_⟩
  rw [h2.2 1]
  rfl


end GroupCallMembers
